import Mathlib

/-!
Verification of the `loian/fuzzylib` Mamdani fuzzy-inference engine.

The Go source is shallowly embedded: Go `float64` values are modelled as
rationals (`ℚ`), Go maps (`map[string]T`) as association lists
(`List (String × T)`) with first-match lookup, and fallible Go functions
returning `(T, error)` as `Except String T` (or `T × Option ℚ` for the
operator "degraded success" contract, where the `Option ℚ` component is the
raw offending value of an `InvalidMembershipError`).
-/

namespace Fuzzylib

/-- First-match lookup in an association list, modelling Go's `m[key]`. -/
def lookup {α : Type} (m : List (String × α)) (k : String) : Option α :=
  match m with
  | [] => none
  | p :: rest => if p.1 = k then some p.2 else lookup rest k

/-- Insert-or-replace in an association list, modelling Go's `m[key] = v`. -/
def mapSet {α : Type} (m : List (String × α)) (k : String) (v : α) :
    List (String × α) :=
  match m with
  | [] => [(k, v)]
  | p :: rest => if p.1 = k then (k, v) :: rest else p :: mapSet rest k v

/-- Decimal rendering of `fmt.Sprintf("%.<d>f", q)`: the value is scaled by
`10^d`, rounded to the nearest integer, and printed with `d` fractional
digits. -/
def formatFixed (d : ℕ) (q : ℚ) : String :=
  let n : ℤ := round (q * (10 : ℚ) ^ d)
  let sign := if n < 0 then "-" else ""
  let a := n.natAbs
  let ip := a / 10 ^ d
  let fp := a % 10 ^ d
  let fpStr := toString fp
  let pad := String.mk (List.replicate (d - fpStr.length) '0')
  sign ++ toString ip ++ "." ++ pad ++ fpStr

/-- Go's `%.2f` formatting. -/
def formatQ2 (q : ℚ) : String := formatFixed 2 q

/-- Go's `%.4f` formatting (used by `InvalidMembershipError.Error`). -/
def formatQ4 (q : ℚ) : String := formatFixed 4 q

/-- The message of `InvalidMembershipError` for an offending raw value. -/
def invalidMembershipMsg (v : ℚ) : String :=
  "membership degree " ++ formatQ4 v ++ " is outside [0, 1]"

/-- Whether a raw value falls outside the valid membership range `[0, 1]`,
as tested by the clamping branches of the operators. -/
def outOfRange (v : ℚ) : Bool := decide (v < 0) || decide (1 < v)

/-- Clamping to `[0, 1]`, as performed inline by the operators. -/
def clamp01 (v : ℚ) : ℚ := if v < 0 then 0 else if v > 1 then 1 else v

/-- One iteration of `MinOperator.Apply`'s loop: clamp the raw value,
record it as the offending value if it is the first invalid one, and take
the minimum with the accumulator. -/
def minStep (acc : ℚ × Option ℚ) (raw : ℚ) : ℚ × Option ℚ :=
  let ve : ℚ × Option ℚ :=
    if raw < 0 then (0, acc.2.orElse (fun _ => some raw))
    else if raw > 1 then (1, acc.2.orElse (fun _ => some raw))
    else (raw, acc.2)
  (if ve.1 < acc.1 then ve.1 else acc.1, ve.2)

/-- `MinOperator.Apply` from `operators.go`: returns the minimum of the
clamped inputs together with the first out-of-range raw value (if any). -/
def minApply (values : List ℚ) : ℚ × Option ℚ :=
  match values with
  | [] => (0, none)
  | v0 :: rest =>
    let init : ℚ × Option ℚ :=
      if v0 < 0 then (0, some v0)
      else if v0 > 1 then (1, some v0)
      else (v0, none)
    let r := rest.foldl minStep init
    let m1 := if r.1 < 0 then 0 else r.1
    let m2 := if m1 > 1 then 1 else m1
    (m2, r.2)

/-- One iteration of `MaxOperator.Apply`'s loop. -/
def maxStep (acc : ℚ × Option ℚ) (raw : ℚ) : ℚ × Option ℚ :=
  let ve : ℚ × Option ℚ :=
    if raw < 0 then (0, acc.2.orElse (fun _ => some raw))
    else if raw > 1 then (1, acc.2.orElse (fun _ => some raw))
    else (raw, acc.2)
  (if ve.1 > acc.1 then ve.1 else acc.1, ve.2)

/-- `MaxOperator.Apply` from `operators.go`. -/
def maxApply (values : List ℚ) : ℚ × Option ℚ :=
  match values with
  | [] => (0, none)
  | v0 :: rest =>
    let init : ℚ × Option ℚ :=
      if v0 < 0 then (0, some v0)
      else if v0 > 1 then (1, some v0)
      else (v0, none)
    let r := rest.foldl maxStep init
    let m1 := if r.1 < 0 then 0 else r.1
    let m2 := if m1 > 1 then 1 else m1
    (m2, r.2)

/-- `NotOperator.Apply` from `operators.go`: complements the first value
only (clamped), ignoring any further values; empty input yields `1.0`. -/
def notApply (values : List ℚ) : ℚ × Option ℚ :=
  match values with
  | [] => (1, none)
  | v :: _ =>
    if v < 0 then (1 - 0, some v)
    else if v > 1 then (1 - 1, some v)
    else (1 - v, none)

/-- The closed set of operators a rule can carry (`operators.AND`,
`operators.OR`, `operators.NOT`). -/
inductive FuzzyOperator where
  | AND : FuzzyOperator
  | OR : FuzzyOperator
  | NOT : FuzzyOperator
deriving DecidableEq

/-- Dynamic dispatch of `Operator.Apply`. -/
def FuzzyOperator.apply : FuzzyOperator → List ℚ → ℚ × Option ℚ
  | .AND, l => minApply l
  | .OR, l => maxApply l
  | .NOT, l => notApply l

/-- `Triangular.Evaluate` from the membership package: a triangular shape
with feet `A`, `C` and peak `B`, degenerate-safe. -/
def triangularEval (A B C : ℚ) (x : ℚ) : ℚ :=
  if A = B ∧ B = C then (if x = A then 1 else 0)
  else if x ≤ A ∨ x ≥ C then 0
  else if x = B then 1
  else if x < B then (if B = A then 1 else (x - A) / (B - A))
  else if C = B then 1 else (C - x) / (C - B)

/-- A fuzzy set: a name bound to a membership evaluator. The membership
evaluator is an external collaborator of the core (any `ℚ → ℚ` function;
the shape formulas such as `triangularEval` produce instances of it). -/
structure FuzzySet where
  Name : String
  eval : ℚ → ℚ

/-- `FuzzyVariable`: a named domain `[MinValue, MaxValue]` with a
name-keyed collection of fuzzy sets. -/
structure FuzzyVariable where
  Name : String
  MinValue : ℚ
  MaxValue : ℚ
  Sets : List (String × FuzzySet)

/-- `FuzzyVariable.Fuzzify`: membership degrees of all sets at a crisp
value. -/
def FuzzyVariable.Fuzzify (fv : FuzzyVariable) (value : ℚ) :
    List (String × ℚ) :=
  fv.Sets.map (fun p => (p.1, p.2.eval value))

/-- `RuleCondition` from the rule package. -/
structure RuleCondition where
  Variable : String
  Set : String
  Negated : Bool
deriving DecidableEq

/-- `Rule` from the rule package. -/
structure Rule where
  Conditions : List RuleCondition
  Output : RuleCondition
  Weight : ℚ
  Operator : FuzzyOperator

/-- The nested membership map `map[variableName]map[setName]degree`. -/
abbrev MembershipMap := List (String × List (String × ℚ))

/-- The per-condition value computed by `Rule.Evaluate`'s loop: look up
`membershipMap[cond.Variable][cond.Set]`; a missing variable or set key
leaves the value at `0.0`; a negated condition complements the found
degree. -/
def conditionValue (membershipMap : MembershipMap) (cond : RuleCondition) : ℚ :=
  match lookup membershipMap cond.Variable with
  | some varMap =>
    match lookup varMap cond.Set with
    | some degree => if cond.Negated then 1 - degree else degree
    | none => 0
  | none => 0

/-- `Rule.Evaluate` from the rule package: fails on zero conditions, maps
each condition to its looked-up (possibly negated) degree, combines with
the rule's operator (aborting if the operator reports an out-of-range
diagnostic), and scales by the weight. -/
def Rule.Evaluate (r : Rule) (membershipMap : MembershipMap) :
    Except String ℚ :=
  if r.Conditions.isEmpty then
    .error "cannot evaluate rule with no conditions"
  else
    let values := r.Conditions.map (conditionValue membershipMap)
    let res := r.Operator.apply values
    match res.2 with
    | some raw =>
      .error ("error applying operator for rule output '" ++
        r.Output.Variable ++ "." ++ r.Output.Set ++ "': " ++
        invalidMembershipMsg raw)
    | none => .ok (res.1 * r.Weight)

/-- `DefaultResolution` from `inference.go`. -/
def DefaultResolution : ℤ := 1000

/-- The floating tolerance `epsilon = 1e-9` from `inference.go`. -/
def epsilon : ℚ := 1 / 1000000000

/-- The error all three defuzzifiers return when nothing fired. -/
def noRuleFiredMsg : String := "no rules fired: all membership degrees are zero"

/-- The effective resolution: non-positive values fall back to
`DefaultResolution`. -/
def effectiveResolution (resolution : ℤ) : ℕ :=
  if resolution ≤ 0 then DefaultResolution.toNat else resolution.toNat

/-- The `i`-th sample point `minValue + i * step` used by the shared
sampling scheme. -/
def samplePoint (outputVar : FuzzyVariable) (res : ℕ) (i : ℕ) : ℚ :=
  outputVar.MinValue + (i : ℚ) * ((outputVar.MaxValue - outputVar.MinValue) / (res : ℚ))

/-- One entry of the inner loop shared by the three defuzzifiers: look the
set up in the output variable, compute `setEvaluator(x) * strength`, and
keep it if it beats the running maximum. -/
def sampleStep (outputVar : FuzzyVariable) (x : ℚ) (acc : ℚ)
    (p : String × ℚ) : ℚ :=
  match lookup outputVar.Sets p.1 with
  | some outputSet =>
    let degree := outputSet.eval x * p.2
    if degree > acc then degree else acc
  | none => acc

/-- The inner loop shared by the three defuzzifiers: the maximum over the
aggregation entries of `setEvaluator(x) * strength`, accumulated from `0.0`
and skipping entries whose set name is absent from the variable. -/
def sampleMax (outputVar : FuzzyVariable) (memberships : List (String × ℚ))
    (x : ℚ) : ℚ :=
  memberships.foldl (sampleStep outputVar x) 0

/-- `defuzzifyCOGWithResolution` from `inference.go`. -/
def defuzzifyCOGWithResolution (outputVar : FuzzyVariable)
    (memberships : List (String × ℚ)) (resolution : ℤ) : Except String ℚ :=
  if memberships.isEmpty then .error noRuleFiredMsg
  else
    let res := effectiveResolution resolution
    let sums := (List.range (res + 1)).foldl
      (fun (acc : ℚ × ℚ) i =>
        let x := samplePoint outputVar res i
        let maxMembership := sampleMax outputVar memberships x
        (acc.1 + x * maxMembership, acc.2 + maxMembership))
      (0, 0)
    if sums.2 = 0 then .error noRuleFiredMsg
    else .ok (sums.1 / sums.2)

/-- One iteration of the MOM scan: at `i = 0` or on a strict improvement
of the running maximum the collected points reset to `[x]`; within the
`epsilon` tolerance of the running maximum the point is appended. -/
def momStep (outputVar : FuzzyVariable) (memberships : List (String × ℚ))
    (res : ℕ) (acc : List ℚ × ℚ) (i : ℕ) : List ℚ × ℚ :=
  let x := samplePoint outputVar res i
  let currentMax := sampleMax outputVar memberships x
  if i = 0 ∨ currentMax > acc.2 then ([x], currentMax)
  else if |currentMax - acc.2| < epsilon then (acc.1 ++ [x], acc.2)
  else acc

/-- `defuzzifyMOMWithResolution` from `inference.go`: scan state is the
collected point list and the running maximum. -/
def defuzzifyMOMWithResolution (outputVar : FuzzyVariable)
    (memberships : List (String × ℚ)) (resolution : ℤ) : Except String ℚ :=
  if memberships.isEmpty then .error noRuleFiredMsg
  else
    let res := effectiveResolution resolution
    let scan := (List.range (res + 1)).foldl
      (momStep outputVar memberships res) ([], 0)
    if scan.1.isEmpty ∨ scan.2 = 0 then .error noRuleFiredMsg
    else .ok (scan.1.sum / (scan.1.length : ℚ))

/-- One iteration of the FOM scan: a strict improvement of the running
maximum records the current point. -/
def fomStep (outputVar : FuzzyVariable) (memberships : List (String × ℚ))
    (res : ℕ) (acc : ℚ × ℚ) (i : ℕ) : ℚ × ℚ :=
  let x := samplePoint outputVar res i
  let currentMax := sampleMax outputVar memberships x
  if currentMax > acc.1 then (currentMax, x) else acc

/-- `defuzzifyFOMWithResolution` from `inference.go`: scan state is the
running maximum and the best point so far (initialised to `MinValue`). -/
def defuzzifyFOMWithResolution (outputVar : FuzzyVariable)
    (memberships : List (String × ℚ)) (resolution : ℤ) : Except String ℚ :=
  if memberships.isEmpty then .error noRuleFiredMsg
  else
    let res := effectiveResolution resolution
    let scan := (List.range (res + 1)).foldl
      (fomStep outputVar memberships res) (0, outputVar.MinValue)
    if scan.1 = 0 then .error noRuleFiredMsg
    else .ok scan.2

/-- `MamdaniInferenceSystem` from `inference.go`. -/
structure MamdaniInferenceSystem where
  InputVariables : List (String × FuzzyVariable)
  OutputVariables : List (String × FuzzyVariable)
  Rules : List Rule
  Resolution : ℤ
  DefuzzMethod : String

/-- The input-validation loop of `Infer`: each configured input variable
must be present and within `[MinValue, MaxValue]`; returns the first error
message, if any. -/
def validateInputs : List (String × FuzzyVariable) → List (String × ℚ) →
    Option String
  | [], _ => none
  | (varName, inputVar) :: rest, inputs =>
    match lookup inputs varName with
    | none => some ("missing required input variable: " ++ varName)
    | some value =>
      if value < inputVar.MinValue ∨ value > inputVar.MaxValue then
        some ("input value " ++ formatQ2 value ++ " for variable '" ++
          varName ++ "' is out of bounds [" ++ formatQ2 inputVar.MinValue ++
          ", " ++ formatQ2 inputVar.MaxValue ++ "]")
      else validateInputs rest inputs

/-- Step 1 of `Infer` (fuzzification): every provided input whose name is a
configured input variable is fuzzified; other entries are skipped. -/
def buildMembershipMap (fis : MamdaniInferenceSystem)
    (inputs : List (String × ℚ)) : MembershipMap :=
  inputs.filterMap (fun p =>
    (lookup fis.InputVariables p.1).map (fun inputVar =>
      (p.1, inputVar.Fuzzify p.2)))

/-- Step 2 of `Infer` (rule firing and max-aggregation): each rule's firing
strength is written to its output (variable, set) slot, keeping the maximum
across rules; rules whose output variable is not an output-map key are
skipped. -/
def fireRules : List Rule → MembershipMap →
    List (String × List (String × ℚ)) →
    Except String (List (String × List (String × ℚ)))
  | [], _, acc => .ok acc
  | r :: rest, membershipMap, acc =>
    match r.Evaluate membershipMap with
    | .error e => .error ("error evaluating rule: " ++ e)
    | .ok firingStrength =>
      let acc' :=
        match lookup acc r.Output.Variable with
        | some inner =>
          match lookup inner r.Output.Set with
          | some current =>
            if firingStrength > current then
              mapSet acc r.Output.Variable (mapSet inner r.Output.Set firingStrength)
            else acc
          | none =>
            mapSet acc r.Output.Variable (mapSet inner r.Output.Set firingStrength)
        | none => acc
      fireRules rest membershipMap acc'

/-- The defuzzification-method dispatch of `Infer`'s step 3 (an unknown
method string defaults to MOM). -/
def dispatchDefuzz (method : String) (outputVar : FuzzyVariable)
    (memberships : List (String × ℚ)) (resolution : ℤ) : Except String ℚ :=
  if method = "centroid" then
    defuzzifyCOGWithResolution outputVar memberships resolution
  else if method = "mom" then
    defuzzifyMOMWithResolution outputVar memberships resolution
  else if method = "fom" ∨ method = "lom" ∨ method = "som" then
    defuzzifyFOMWithResolution outputVar memberships resolution
  else
    defuzzifyMOMWithResolution outputVar memberships resolution

/-- Step 3 of `Infer`: defuzzify every output variable, short-circuiting on
the first failure. -/
def defuzzAll (method : String) (resolution : ℤ)
    (outputMemberships : List (String × List (String × ℚ))) :
    List (String × FuzzyVariable) → Except String (List (String × ℚ))
  | [] => .ok []
  | (varName, outputVar) :: rest =>
    match dispatchDefuzz method outputVar
        ((lookup outputMemberships varName).getD []) resolution with
    | .error e =>
      .error ("defuzzification failed for variable '" ++ varName ++ "': " ++ e)
    | .ok result =>
      match defuzzAll method resolution outputMemberships rest with
      | .error e => .error e
      | .ok results => .ok ((varName, result) :: results)

/-- `Infer` from `inference.go`: configuration checks, input validation,
fuzzification, rule firing with max-aggregation, then defuzzification of
every output variable; any failure aborts the whole call. -/
def Infer (fis : MamdaniInferenceSystem) (inputs : List (String × ℚ)) :
    Except String (List (String × ℚ)) :=
  if fis.InputVariables.isEmpty then
    .error "inference system has no input variables"
  else if fis.OutputVariables.isEmpty then
    .error "inference system has no output variables"
  else if fis.Rules.isEmpty then
    .error "inference system has no rules"
  else
    match validateInputs fis.InputVariables inputs with
    | some e => .error e
    | none =>
      let membershipMap := buildMembershipMap fis inputs
      match fireRules fis.Rules membershipMap
          (fis.OutputVariables.map (fun p => (p.1, []))) with
      | .error e => .error e
      | .ok outputMemberships =>
        defuzzAll fis.DefuzzMethod fis.Resolution outputMemberships
          fis.OutputVariables

/-! ### Spec-side notions used to state the claims -/

/-- The minimum of a nonempty list (`0` for an empty one). -/
def listMinD (l : List ℚ) : ℚ :=
  match l with
  | [] => 0
  | a :: rest => rest.foldl min a

/-- The maximum of a nonempty list (`0` for an empty one). -/
def listMaxD (l : List ℚ) : ℚ :=
  match l with
  | [] => 0
  | a :: rest => rest.foldl max a

/-- The `R+1` equally spaced sample points `x_i = lo + i·(hi-lo)/R`. -/
def specPoints (lo hi : ℚ) (R : ℕ) : List ℚ :=
  (List.range (R + 1)).map (fun i : ℕ => lo + (i : ℚ) * ((hi - lo) / (R : ℚ)))

/-- The evaluator of a named set within a set collection (`0` if absent). -/
def evalAt (sets : List (String × FuzzySet)) (nm : String) (x : ℚ) : ℚ :=
  match lookup sets nm with
  | some s => s.eval x
  | none => 0

/-- The aggregated membership `m(x)` as the spec states it: the maximum
over the aggregation entries of `setEvaluator(x) * strength`. -/
def specM (sets : List (String × FuzzySet)) (memberships : List (String × ℚ))
    (x : ℚ) : ℚ :=
  listMaxD (memberships.map (fun p => evalAt sets p.1 x * p.2))

/-! ### Operator lemmas -/

lemma if_lt_eq_min (a b : ℚ) : (if b < a then b else a) = min a b := by
  rcases le_or_lt a b with h | h
  · rw [if_neg (not_lt.mpr h), min_eq_left h]
  · rw [if_pos h, min_eq_right h.le]

lemma if_gt_eq_max (a b : ℚ) : (if b > a then b else a) = max a b := by
  rcases le_or_lt b a with h | h
  · rw [if_neg (not_lt.mpr h), max_eq_left h]
  · rw [if_pos h, max_eq_right h.le]

lemma minStep_eq (a : ℚ) (e : Option ℚ) (raw : ℚ) :
    minStep (a, e) raw = (min a (clamp01 raw),
      if outOfRange raw then e.orElse (fun _ => some raw) else e) := by
  by_cases h1 : raw < 0
  · have ho : outOfRange raw = true := by simp [outOfRange, h1]
    simp [minStep, clamp01, if_pos h1, ho, if_lt_eq_min]
  · by_cases h2 : raw > 1
    · have ho : outOfRange raw = true := by simp [outOfRange, h2]
      simp [minStep, clamp01, if_neg h1, if_pos h2, ho, if_lt_eq_min]
    · have ho : outOfRange raw = false := by simp [outOfRange, h1, h2]
      simp [minStep, clamp01, if_neg h1, if_neg h2, ho, if_lt_eq_min]

lemma maxStep_eq (a : ℚ) (e : Option ℚ) (raw : ℚ) :
    maxStep (a, e) raw = (max a (clamp01 raw),
      if outOfRange raw then e.orElse (fun _ => some raw) else e) := by
  by_cases h1 : raw < 0
  · have ho : outOfRange raw = true := by simp [outOfRange, h1]
    simp [maxStep, clamp01, if_pos h1, ho, if_gt_eq_max]
  · by_cases h2 : raw > 1
    · have ho : outOfRange raw = true := by simp [outOfRange, h2]
      simp [maxStep, clamp01, if_neg h1, if_pos h2, ho, if_gt_eq_max]
    · have ho : outOfRange raw = false := by simp [outOfRange, h1, h2]
      simp [maxStep, clamp01, if_neg h1, if_neg h2, ho, if_gt_eq_max]

lemma foldl_minStep (l : List ℚ) (a : ℚ) (e : Option ℚ) :
    l.foldl minStep (a, e) =
      ((l.map clamp01).foldl min a,
        match e with
        | some x => some x
        | none => l.find? outOfRange) := by
  induction l generalizing a e with
  | nil => cases e <;> simp
  | cons hd tl ih =>
    simp only [List.foldl_cons, List.map_cons, minStep_eq]
    cases e with
    | some x => by_cases h : outOfRange hd <;> simp [h, ih]
    | none =>
      by_cases h : outOfRange hd <;>
        simp [h, ih, List.find?_cons_of_pos, List.find?_cons_of_neg,
          Bool.not_eq_true]

lemma foldl_maxStep (l : List ℚ) (a : ℚ) (e : Option ℚ) :
    l.foldl maxStep (a, e) =
      ((l.map clamp01).foldl max a,
        match e with
        | some x => some x
        | none => l.find? outOfRange) := by
  induction l generalizing a e with
  | nil => cases e <;> simp
  | cons hd tl ih =>
    simp only [List.foldl_cons, List.map_cons, maxStep_eq]
    cases e with
    | some x => by_cases h : outOfRange hd <;> simp [h, ih]
    | none =>
      by_cases h : outOfRange hd <;>
        simp [h, ih, List.find?_cons_of_pos, List.find?_cons_of_neg,
          Bool.not_eq_true]

lemma clamp01_mem (v : ℚ) : 0 ≤ clamp01 v ∧ clamp01 v ≤ 1 := by
  unfold clamp01; split_ifs <;> constructor <;> linarith

lemma clamp01_of_mem {v : ℚ} (h : 0 ≤ v ∧ v ≤ 1) : clamp01 v = v := by
  unfold clamp01
  rw [if_neg (not_lt.mpr h.1), if_neg (not_lt.mpr h.2)]

lemma outOfRange_false_of_mem {v : ℚ} (h : 0 ≤ v ∧ v ≤ 1) :
    outOfRange v = false := by
  simp [outOfRange, not_lt.mpr h.1, not_lt.mpr h.2]

lemma foldl_min_mem (l : List ℚ) (a : ℚ) (ha : 0 ≤ a ∧ a ≤ 1)
    (hl : ∀ v ∈ l, 0 ≤ v ∧ v ≤ 1) :
    0 ≤ l.foldl min a ∧ l.foldl min a ≤ 1 := by
  induction l generalizing a with
  | nil => exact ha
  | cons hd tl ih =>
    have hhd := hl hd (by simp)
    refine ih (min a hd) ⟨le_min ha.1 hhd.1, min_le_of_left_le ha.2⟩ ?_
    exact fun v hv => hl v (by simp [hv])

lemma foldl_max_mem (l : List ℚ) (a : ℚ) (ha : 0 ≤ a ∧ a ≤ 1)
    (hl : ∀ v ∈ l, 0 ≤ v ∧ v ≤ 1) :
    0 ≤ l.foldl max a ∧ l.foldl max a ≤ 1 := by
  induction l generalizing a with
  | nil => exact ha
  | cons hd tl ih =>
    have hhd := hl hd (by simp)
    refine ih (max a hd) ⟨le_max_of_le_left ha.1, max_le ha.2 hhd.2⟩ ?_
    exact fun v hv => hl v (by simp [hv])

/-- `MinOperator.Apply` on a nonempty input: the minimum of the clamped
values, paired with the first out-of-range raw value. -/
lemma minApply_cons (v0 : ℚ) (rest : List ℚ) :
    minApply (v0 :: rest) =
      ((rest.map clamp01).foldl min (clamp01 v0),
        (v0 :: rest).find? outOfRange) := by
  have hmem : 0 ≤ (rest.map clamp01).foldl min (clamp01 v0) ∧
      (rest.map clamp01).foldl min (clamp01 v0) ≤ 1 := by
    refine foldl_min_mem _ _ (clamp01_mem v0) ?_
    intro v hv
    rcases List.mem_map.mp hv with ⟨w, _, rfl⟩
    exact clamp01_mem w
  have hinit : (if v0 < 0 then ((0 : ℚ), some v0)
      else if v0 > 1 then (1, some v0) else (v0, none)) =
      (clamp01 v0, if outOfRange v0 then some v0 else none) := by
    by_cases h1 : v0 < 0
    · have ho : outOfRange v0 = true := by simp [outOfRange, h1]
      simp [clamp01, if_pos h1, ho]
    · by_cases h2 : v0 > 1
      · have ho : outOfRange v0 = true := by simp [outOfRange, h2]
        simp [clamp01, if_neg h1, if_pos h2, ho]
      · have ho : outOfRange v0 = false := by simp [outOfRange, h1, h2]
        simp [clamp01, if_neg h1, if_neg h2, ho]
  simp only [minApply, hinit, foldl_minStep]
  by_cases h : outOfRange v0 <;>
    simp [h, List.find?_cons_of_pos, List.find?_cons_of_neg,
      Bool.not_eq_true, not_lt.mpr hmem.1, not_lt.mpr hmem.2]

/-- `MaxOperator.Apply` on a nonempty input. -/
lemma maxApply_cons (v0 : ℚ) (rest : List ℚ) :
    maxApply (v0 :: rest) =
      ((rest.map clamp01).foldl max (clamp01 v0),
        (v0 :: rest).find? outOfRange) := by
  have hmem : 0 ≤ (rest.map clamp01).foldl max (clamp01 v0) ∧
      (rest.map clamp01).foldl max (clamp01 v0) ≤ 1 := by
    refine foldl_max_mem _ _ (clamp01_mem v0) ?_
    intro v hv
    rcases List.mem_map.mp hv with ⟨w, _, rfl⟩
    exact clamp01_mem w
  have hinit : (if v0 < 0 then ((0 : ℚ), some v0)
      else if v0 > 1 then (1, some v0) else (v0, none)) =
      (clamp01 v0, if outOfRange v0 then some v0 else none) := by
    by_cases h1 : v0 < 0
    · have ho : outOfRange v0 = true := by simp [outOfRange, h1]
      simp [clamp01, if_pos h1, ho]
    · by_cases h2 : v0 > 1
      · have ho : outOfRange v0 = true := by simp [outOfRange, h2]
        simp [clamp01, if_neg h1, if_pos h2, ho]
      · have ho : outOfRange v0 = false := by simp [outOfRange, h1, h2]
        simp [clamp01, if_neg h1, if_neg h2, ho]
  simp only [maxApply, hinit, foldl_maxStep]
  by_cases h : outOfRange v0 <;>
    simp [h, List.find?_cons_of_pos, List.find?_cons_of_neg,
      Bool.not_eq_true, not_lt.mpr hmem.1, not_lt.mpr hmem.2]

lemma map_clamp01_of_mem {l : List ℚ} (h : ∀ v ∈ l, 0 ≤ v ∧ v ≤ 1) :
    l.map clamp01 = l := by
  induction l with
  | nil => rfl
  | cons hd tl ih =>
    simp only [List.map_cons, clamp01_of_mem (h hd (by simp)),
      ih (fun v hv => h v (by simp [hv]))]

lemma find?_outOfRange_eq_none {l : List ℚ} (h : ∀ v ∈ l, 0 ≤ v ∧ v ≤ 1) :
    l.find? outOfRange = none := by
  rw [List.find?_eq_none]
  intro x hx
  simp [outOfRange_false_of_mem (h x hx)]

/-- In-range inputs: `MinOperator.Apply` is the plain list minimum with no
diagnostic. -/
lemma minApply_of_mem (v0 : ℚ) (rest : List ℚ)
    (h : ∀ v ∈ v0 :: rest, 0 ≤ v ∧ v ≤ 1) :
    minApply (v0 :: rest) = (rest.foldl min v0, none) := by
  rw [minApply_cons, find?_outOfRange_eq_none h,
    map_clamp01_of_mem (fun v hv => h v (by simp [hv])),
    clamp01_of_mem (h v0 (by simp))]

/-- In-range inputs: `MaxOperator.Apply` is the plain list maximum with no
diagnostic. -/
lemma maxApply_of_mem (v0 : ℚ) (rest : List ℚ)
    (h : ∀ v ∈ v0 :: rest, 0 ≤ v ∧ v ≤ 1) :
    maxApply (v0 :: rest) = (rest.foldl max v0, none) := by
  rw [maxApply_cons, find?_outOfRange_eq_none h,
    map_clamp01_of_mem (fun v hv => h v (by simp [hv])),
    clamp01_of_mem (h v0 (by simp))]

/-- C6: for in-range inputs, `AND.Apply` is the minimum of the values,
`OR.Apply` the maximum, and `NOT.Apply(v)` is `1 - v`, all without error;
on empty input `AND.Apply` and `OR.Apply` return `0.0` and `NOT.Apply`
returns `1.0`. -/
theorem c6_operators_min_max_not (l : List ℚ) (v : ℚ)
    (hl : ∀ x ∈ l, 0 ≤ x ∧ x ≤ 1) (hv : 0 ≤ v ∧ v ≤ 1) :
    (∀ v0 rest, l = v0 :: rest →
      minApply l = (rest.foldl min v0, none) ∧
      maxApply l = (rest.foldl max v0, none)) ∧
    notApply [v] = (1 - v, none) ∧
    minApply [] = (0, none) ∧ maxApply [] = (0, none) ∧
    notApply [] = (1, none) := by
  refine ⟨?_, ?_, rfl, rfl, rfl⟩
  · rintro v0 rest rfl
    exact ⟨minApply_of_mem v0 rest hl, maxApply_of_mem v0 rest hl⟩
  · simp [notApply, not_lt.mpr hv.1, not_lt.mpr hv.2]

theorem c6_operators_min_max_not_witness :
    (∀ x ∈ [(4 : ℚ)/5, 3/5], 0 ≤ x ∧ x ≤ 1) ∧
    (0 ≤ (1 : ℚ)/2 ∧ (1 : ℚ)/2 ≤ 1) ∧
    ((∀ v0 rest, [(4 : ℚ)/5, 3/5] = v0 :: rest →
        minApply [(4 : ℚ)/5, 3/5] = (rest.foldl min v0, none) ∧
        maxApply [(4 : ℚ)/5, 3/5] = (rest.foldl max v0, none)) ∧
      notApply [(1 : ℚ)/2] = (1 - (1 : ℚ)/2, none) ∧
      minApply [] = (0, none) ∧ maxApply [] = (0, none) ∧
      notApply [] = (1, none)) :=
  ⟨by norm_num, by norm_num,
    c6_operators_min_max_not [(4 : ℚ)/5, 3/5] ((1 : ℚ)/2) (by norm_num)
      (by norm_num)⟩

/-- C7 counterexample: `NOT.Apply(0.2, 1.5)` contains the out-of-range
value `1.5`, yet the call reports no invalid-membership-degree error (the
NOT operator only examines its first argument). -/
theorem c7_counterexample_not_ignores_tail :
    notApply [(1 : ℚ)/5, 3/2] = (4/5, none) ∧
    ((3 : ℚ)/2 < 0 ∨ 1 < (3 : ℚ)/2) := by
  constructor
  · norm_num [notApply]
  · norm_num

/-- C7 (amended): for `AND.Apply` and `OR.Apply`, any input sequence with
an out-of-range value is clamped element-wise for the result (which stays
in `[0,1]`), and the diagnostic carries the first offending raw value in
left-to-right scan order; `NOT.Apply` examines only its first value, so it
reports (and clamps) exactly when that first value is out of range, and
out-of-range values in later positions are ignored. -/
theorem c7_amended_clamping_and_first_error (v0 : ℚ) (rest : List ℚ)
    (w0 : ℚ) (wrest : List ℚ)
    (hbad : ∃ x ∈ v0 :: rest, x < 0 ∨ 1 < x) (hw : w0 < 0 ∨ 1 < w0) :
    (minApply (v0 :: rest)).1 = (rest.map clamp01).foldl min (clamp01 v0) ∧
    (0 ≤ (minApply (v0 :: rest)).1 ∧ (minApply (v0 :: rest)).1 ≤ 1) ∧
    (minApply (v0 :: rest)).2 = (v0 :: rest).find? outOfRange ∧
    (maxApply (v0 :: rest)).1 = (rest.map clamp01).foldl max (clamp01 v0) ∧
    (0 ≤ (maxApply (v0 :: rest)).1 ∧ (maxApply (v0 :: rest)).1 ≤ 1) ∧
    (maxApply (v0 :: rest)).2 = (v0 :: rest).find? outOfRange ∧
    (∃ x, (v0 :: rest).find? outOfRange = some x ∧ (x < 0 ∨ 1 < x)) ∧
    notApply (w0 :: wrest) = (1 - clamp01 w0, some w0) := by
  have hclamped : ∀ u ∈ (v0 :: rest).map clamp01, 0 ≤ u ∧ u ≤ 1 := by
    intro u hu
    rcases List.mem_map.mp hu with ⟨w, _, rfl⟩
    exact clamp01_mem w
  have hminmem := foldl_min_mem (rest.map clamp01) (clamp01 v0)
    (clamp01_mem v0) (fun u hu => hclamped u (by simp at hu ⊢; right; exact hu))
  have hmaxmem := foldl_max_mem (rest.map clamp01) (clamp01 v0)
    (clamp01_mem v0) (fun u hu => hclamped u (by simp at hu ⊢; right; exact hu))
  refine ⟨by rw [minApply_cons], ⟨by rw [minApply_cons]; exact hminmem.1,
      by rw [minApply_cons]; exact hminmem.2⟩, by rw [minApply_cons],
    by rw [maxApply_cons], ⟨by rw [maxApply_cons]; exact hmaxmem.1,
      by rw [maxApply_cons]; exact hmaxmem.2⟩, by rw [maxApply_cons],
    ?_, ?_⟩
  · rcases hbad with ⟨x, hx, hxout⟩
    have hsome : ((v0 :: rest).find? outOfRange).isSome := by
      rw [List.find?_isSome]
      exact ⟨x, hx, by rcases hxout with h | h <;> simp [outOfRange, h]⟩
    rcases Option.isSome_iff_exists.mp hsome with ⟨a, ha⟩
    have hpa := List.find?_some ha
    refine ⟨a, ha, ?_⟩
    simpa [outOfRange, decide_eq_true_eq] using hpa
  · by_cases h0 : w0 < 0
    · have : clamp01 w0 = 0 := by simp [clamp01, h0]
      simp [notApply, if_pos h0, this]
    · have h1 : w0 > 1 := by
        rcases hw with h | h
        · exact absurd h h0
        · exact h
      have : clamp01 w0 = 1 := by simp [clamp01, h0, if_pos h1]
      simp [notApply, if_neg h0, if_pos h1, this]

theorem c7_amended_clamping_and_first_error_witness :
    (∃ x ∈ [(3 : ℚ)/2, 1/5], x < 0 ∨ 1 < x) ∧
    ((-2 : ℚ) < 0 ∨ 1 < (-2 : ℚ)) ∧
    ((minApply [(3 : ℚ)/2, 1/5]).1 =
        ([(1 : ℚ)/5].map clamp01).foldl min (clamp01 (3/2)) ∧
      (0 ≤ (minApply [(3 : ℚ)/2, 1/5]).1 ∧ (minApply [(3 : ℚ)/2, 1/5]).1 ≤ 1) ∧
      (minApply [(3 : ℚ)/2, 1/5]).2 = ([(3 : ℚ)/2, 1/5]).find? outOfRange ∧
      (maxApply [(3 : ℚ)/2, 1/5]).1 =
        ([(1 : ℚ)/5].map clamp01).foldl max (clamp01 (3/2)) ∧
      (0 ≤ (maxApply [(3 : ℚ)/2, 1/5]).1 ∧ (maxApply [(3 : ℚ)/2, 1/5]).1 ≤ 1) ∧
      (maxApply [(3 : ℚ)/2, 1/5]).2 = ([(3 : ℚ)/2, 1/5]).find? outOfRange ∧
      (∃ x, ([(3 : ℚ)/2, 1/5]).find? outOfRange = some x ∧ (x < 0 ∨ 1 < x)) ∧
      notApply [(-2 : ℚ), 5] = (1 - clamp01 (-2), some (-2))) :=
  ⟨by norm_num, by norm_num,
    c7_amended_clamping_and_first_error (3/2) [1/5] (-2) [5]
      (by norm_num) (by norm_num)⟩

/-! ### Rule evaluation (C2) -/

lemma lookup_mem {α : Type} {m : List (String × α)} {k : String} {v : α}
    (h : lookup m k = some v) : (k, v) ∈ m := by
  induction m with
  | nil => simp [lookup] at h
  | cons p rest ih =>
    rw [lookup] at h
    by_cases hk : p.1 = k
    · rw [if_pos hk] at h
      injection h with h2
      have hp : (k, v) = p := by
        cases p
        simp only at hk h2
        simp [hk, h2]
      rw [hp]
      exact List.mem_cons_self p rest
    · rw [if_neg hk] at h
      exact List.mem_cons_of_mem p (ih h)

/-- In-range degrees stay in range through lookup and negation. -/
lemma conditionValue_mem (mm : MembershipMap) (cond : RuleCondition)
    (hdeg : ∀ p ∈ mm, ∀ q ∈ p.2, 0 ≤ q.2 ∧ q.2 ≤ 1) :
    0 ≤ conditionValue mm cond ∧ conditionValue mm cond ≤ 1 := by
  cases hv : lookup mm cond.Variable with
  | none => norm_num [conditionValue, hv]
  | some varMap =>
    cases hs : lookup varMap cond.Set with
    | none => norm_num [conditionValue, hv, hs]
    | some degree =>
      have hd : 0 ≤ degree ∧ degree ≤ 1 :=
        hdeg _ (lookup_mem hv) _ (lookup_mem hs)
      simp only [conditionValue, hv, hs]
      cases cond.Negated <;> simp <;> constructor <;> linarith [hd.1, hd.2]

/-- Every operator, fed in-range values, reports no diagnostic and
produces a value in `[0, 1]`. -/
lemma apply_of_mem (op : FuzzyOperator) (l : List ℚ)
    (h : ∀ v ∈ l, 0 ≤ v ∧ v ≤ 1) :
    (op.apply l).2 = none ∧ 0 ≤ (op.apply l).1 ∧ (op.apply l).1 ≤ 1 := by
  cases op with
  | AND =>
    cases l with
    | nil =>
      refine ⟨rfl, by norm_num [FuzzyOperator.apply, minApply],
        by norm_num [FuzzyOperator.apply, minApply]⟩
    | cons v0 rest =>
      rw [FuzzyOperator.apply, minApply_of_mem v0 rest h]
      exact ⟨rfl, foldl_min_mem rest v0 (h v0 (by simp))
        (fun v hv => h v (by simp [hv]))⟩
  | OR =>
    cases l with
    | nil =>
      refine ⟨rfl, by norm_num [FuzzyOperator.apply, maxApply],
        by norm_num [FuzzyOperator.apply, maxApply]⟩
    | cons v0 rest =>
      rw [FuzzyOperator.apply, maxApply_of_mem v0 rest h]
      exact ⟨rfl, foldl_max_mem rest v0 (h v0 (by simp))
        (fun v hv => h v (by simp [hv]))⟩
  | NOT =>
    cases l with
    | nil =>
      refine ⟨rfl, by norm_num [FuzzyOperator.apply, notApply],
        by norm_num [FuzzyOperator.apply, notApply]⟩
    | cons v0 rest =>
      have hv := h v0 (by simp)
      rw [FuzzyOperator.apply]
      rw [show notApply (v0 :: rest) = (1 - v0, none) by
        simp [notApply, not_lt.mpr hv.1, not_lt.mpr hv.2]]
      refine ⟨rfl, by simp; linarith [hv.2], by simp; linarith [hv.1]⟩

/-- C2 (amended): `Rule.Evaluate` fails when the rule has zero conditions,
and also when a contributed value lies outside `[0,1]` (the operator's
diagnostic aborts evaluation). For membership maps whose degrees all lie
in `[0,1]` — the intended domain — it fails exactly when the rule has zero
conditions; otherwise each condition contributes the looked-up degree
(complemented when negated, `0.0` when either key is absent, negated or
not), the contributions are combined with the rule's operator, scaled by
the weight, and for weight in `[0,1]` the firing strength lies in
`[0,1]`. -/
theorem c2_rule_evaluate_firing_strength (r : Rule) (mm : MembershipMap)
    (hdeg : ∀ p ∈ mm, ∀ q ∈ p.2, 0 ≤ q.2 ∧ q.2 ≤ 1) :
    (r.Conditions = [] →
      r.Evaluate mm = .error "cannot evaluate rule with no conditions") ∧
    (r.Conditions ≠ [] →
      r.Evaluate mm =
        .ok ((r.Operator.apply (r.Conditions.map (conditionValue mm))).1 *
          r.Weight) ∧
      (0 ≤ r.Weight → r.Weight ≤ 1 →
        0 ≤ (r.Operator.apply (r.Conditions.map (conditionValue mm))).1 *
            r.Weight ∧
        (r.Operator.apply (r.Conditions.map (conditionValue mm))).1 *
            r.Weight ≤ 1)) := by
  constructor
  · intro hnil
    rw [Rule.Evaluate, if_pos (by simp [hnil])]
  · intro hne
    have hvals : ∀ v ∈ r.Conditions.map (conditionValue mm),
        0 ≤ v ∧ v ≤ 1 := by
      intro v hv
      rcases List.mem_map.mp hv with ⟨c, _, rfl⟩
      exact conditionValue_mem mm c hdeg
    have happ := apply_of_mem r.Operator _ hvals
    constructor
    · rw [Rule.Evaluate, if_neg (by simp [hne])]
      simp only [happ.1]
    · intro hw0 hw1
      exact ⟨mul_nonneg happ.2.1 hw0,
        mul_le_one₀ happ.2.2 hw0 hw1⟩

/-- Evaluation of `formatFixed` once the scaled value is a known integer. -/
lemma formatFixed_of_int (d : ℕ) (q : ℚ) (n : ℤ)
    (h : q * (10 : ℚ) ^ d = (n : ℚ)) :
    formatFixed d q =
      (if n < 0 then "-" else "") ++ toString (n.natAbs / 10 ^ d) ++ "." ++
      String.mk (List.replicate (d - (toString (n.natAbs % 10 ^ d)).length) '0') ++
      toString (n.natAbs % 10 ^ d) := by
  simp only [formatFixed, h, round_intCast]

/-- C2 counterexample: a rule with one (non-negated) condition and a
membership map carrying the out-of-range degree `1.5`: `Rule.Evaluate`
fails even though the rule has a condition, because the operator's
invalid-membership diagnostic is promoted to an error. -/
theorem c2_counterexample_invalid_degree_fails :
    (Rule.Conditions ⟨[⟨"T", "Cold", false⟩], ⟨"F", "Off", false⟩, 1, .AND⟩).length = 1 ∧
    Rule.Evaluate ⟨[⟨"T", "Cold", false⟩], ⟨"F", "Off", false⟩, 1, .AND⟩
        [("T", [("Cold", 3/2)])] =
      .error "error applying operator for rule output 'F.Off': membership degree 1.5000 is outside [0, 1]" := by
  refine ⟨rfl, ?_⟩
  have hfmt : formatQ4 (3/2 : ℚ) = "1.5000" := by
    rw [formatQ4, formatFixed_of_int 4 (3/2 : ℚ) 15000 (by norm_num)]
    rfl
  have hval : conditionValue [("T", [("Cold", 3/2)])] ⟨"T", "Cold", false⟩ =
      3/2 := by
    simp [conditionValue, lookup]
  have happ : minApply [(3 : ℚ)/2] = (1, some (3/2)) := by
    norm_num [minApply]
  rw [Rule.Evaluate]
  simp only [List.isEmpty_cons, if_neg]
  simp only [List.map_cons, List.map_nil, hval, FuzzyOperator.apply, happ,
    invalidMembershipMsg, hfmt]
  rfl

theorem c2_rule_evaluate_firing_strength_witness :
    (∀ p ∈ [("T", [("Cold", (1 : ℚ)), ("Hot", 1/4)])],
      ∀ q ∈ p.2, 0 ≤ q.2 ∧ q.2 ≤ 1) ∧
    ((Rule.Conditions ⟨[⟨"T", "Cold", false⟩, ⟨"T", "Hot", true⟩],
        ⟨"F", "Off", false⟩, 1/2, .AND⟩ = [] →
      Rule.Evaluate ⟨[⟨"T", "Cold", false⟩, ⟨"T", "Hot", true⟩],
          ⟨"F", "Off", false⟩, 1/2, .AND⟩
          [("T", [("Cold", (1 : ℚ)), ("Hot", 1/4)])] =
        .error "cannot evaluate rule with no conditions") ∧
    (Rule.Conditions ⟨[⟨"T", "Cold", false⟩, ⟨"T", "Hot", true⟩],
        ⟨"F", "Off", false⟩, 1/2, .AND⟩ ≠ [] →
      Rule.Evaluate ⟨[⟨"T", "Cold", false⟩, ⟨"T", "Hot", true⟩],
          ⟨"F", "Off", false⟩, 1/2, .AND⟩
          [("T", [("Cold", (1 : ℚ)), ("Hot", 1/4)])] =
        .ok ((FuzzyOperator.apply
          (Rule.Operator ⟨[⟨"T", "Cold", false⟩, ⟨"T", "Hot", true⟩],
            ⟨"F", "Off", false⟩, 1/2, .AND⟩)
          ((Rule.Conditions ⟨[⟨"T", "Cold", false⟩, ⟨"T", "Hot", true⟩],
            ⟨"F", "Off", false⟩, 1/2, .AND⟩).map
              (conditionValue [("T", [("Cold", (1 : ℚ)), ("Hot", 1/4)])]))).1 *
          Rule.Weight ⟨[⟨"T", "Cold", false⟩, ⟨"T", "Hot", true⟩],
            ⟨"F", "Off", false⟩, 1/2, .AND⟩) ∧
      (0 ≤ Rule.Weight ⟨[⟨"T", "Cold", false⟩, ⟨"T", "Hot", true⟩],
            ⟨"F", "Off", false⟩, 1/2, .AND⟩ →
        Rule.Weight ⟨[⟨"T", "Cold", false⟩, ⟨"T", "Hot", true⟩],
            ⟨"F", "Off", false⟩, 1/2, .AND⟩ ≤ 1 →
        0 ≤ (FuzzyOperator.apply
            (Rule.Operator ⟨[⟨"T", "Cold", false⟩, ⟨"T", "Hot", true⟩],
              ⟨"F", "Off", false⟩, 1/2, .AND⟩)
            ((Rule.Conditions ⟨[⟨"T", "Cold", false⟩, ⟨"T", "Hot", true⟩],
              ⟨"F", "Off", false⟩, 1/2, .AND⟩).map
                (conditionValue [("T", [("Cold", (1 : ℚ)), ("Hot", 1/4)])]))).1 *
            Rule.Weight ⟨[⟨"T", "Cold", false⟩, ⟨"T", "Hot", true⟩],
              ⟨"F", "Off", false⟩, 1/2, .AND⟩ ∧
          (FuzzyOperator.apply
            (Rule.Operator ⟨[⟨"T", "Cold", false⟩, ⟨"T", "Hot", true⟩],
              ⟨"F", "Off", false⟩, 1/2, .AND⟩)
            ((Rule.Conditions ⟨[⟨"T", "Cold", false⟩, ⟨"T", "Hot", true⟩],
              ⟨"F", "Off", false⟩, 1/2, .AND⟩).map
                (conditionValue [("T", [("Cold", (1 : ℚ)), ("Hot", 1/4)])]))).1 *
            Rule.Weight ⟨[⟨"T", "Cold", false⟩, ⟨"T", "Hot", true⟩],
              ⟨"F", "Off", false⟩, 1/2, .AND⟩ ≤ 1))) :=
  ⟨by
      intro p hp q hq
      simp only [List.mem_singleton] at hp
      subst hp
      simp only [List.mem_cons, List.not_mem_nil, or_false] at hq
      rcases hq with rfl | rfl <;> norm_num,
    c2_rule_evaluate_firing_strength
      ⟨[⟨"T", "Cold", false⟩, ⟨"T", "Hot", true⟩], ⟨"F", "Off", false⟩, 1/2, .AND⟩
      [("T", [("Cold", (1 : ℚ)), ("Hot", 1/4)])]
      (by
        intro p hp q hq
        simp only [List.mem_singleton] at hp
        subst hp
        simp only [List.mem_cons, List.not_mem_nil, or_false] at hq
        rcases hq with rfl | rfl <;> norm_num)⟩

/-! ### The shared sampling scheme (C1, C3, C4) -/

lemma evalAt_nonneg (sets : List (String × FuzzySet)) (nm : String) (x : ℚ)
    (hev : ∀ n s, lookup sets n = some s → ∀ y, 0 ≤ s.eval y) :
    0 ≤ evalAt sets nm x := by
  unfold evalAt
  cases h : lookup sets nm with
  | none => simp
  | some s => simpa using hev nm s h x

lemma sampleStep_some (v : FuzzyVariable) (x acc : ℚ) (p : String × ℚ)
    (s : FuzzySet) (hs : lookup v.Sets p.1 = some s) :
    sampleStep v x acc p = max acc (s.eval x * p.2) := by
  simp only [sampleStep, hs, if_gt_eq_max]

lemma sampleStep_none (v : FuzzyVariable) (x acc : ℚ) (p : String × ℚ)
    (hs : lookup v.Sets p.1 = none) : sampleStep v x acc p = acc := by
  simp only [sampleStep, hs]

lemma sampleMax_foldl_general (v : FuzzyVariable) (x : ℚ)
    (mem : List (String × ℚ))
    (hkeys : ∀ p ∈ mem, (lookup v.Sets p.1).isSome) (a : ℚ) :
    mem.foldl (sampleStep v x) a =
    (mem.map (fun p => evalAt v.Sets p.1 x * p.2)).foldl max a := by
  induction mem generalizing a with
  | nil => rfl
  | cons hd tl ih =>
    rcases Option.isSome_iff_exists.mp (hkeys hd (by simp)) with ⟨s, hs⟩
    rw [List.foldl_cons, List.map_cons, List.foldl_cons,
      sampleStep_some v x a hd s hs,
      show evalAt v.Sets hd.1 x = s.eval x by simp [evalAt, hs]]
    exact ih (fun p hp => hkeys p (by simp [hp])) _

/-- The inner loop equals a fold of `max` over the products. -/
lemma sampleMax_eq_foldl_max (v : FuzzyVariable) (mem : List (String × ℚ))
    (x : ℚ) (hkeys : ∀ p ∈ mem, (lookup v.Sets p.1).isSome) :
    sampleMax v mem x =
      (mem.map (fun p => evalAt v.Sets p.1 x * p.2)).foldl max 0 :=
  sampleMax_foldl_general v x mem hkeys 0

lemma foldl_max_zero_of_head_nonneg (a : ℚ) (l : List ℚ) (ha : 0 ≤ a) :
    (a :: l).foldl max 0 = l.foldl max a := by
  rw [List.foldl_cons, max_eq_right ha]

/-- Under the intended invariants (every aggregation key names a set of the
variable, strengths are nonnegative, evaluators are nonnegative), the inner
loop computes exactly the spec's `m(x)`: the maximum over the aggregation
entries of `setEvaluator(x) * strength`. -/
lemma sampleMax_eq_specM (v : FuzzyVariable) (mem : List (String × ℚ))
    (x : ℚ) (hne : mem ≠ [])
    (hkeys : ∀ p ∈ mem, (lookup v.Sets p.1).isSome)
    (hstr : ∀ p ∈ mem, 0 ≤ p.2)
    (hev : ∀ n s, lookup v.Sets n = some s → ∀ y, 0 ≤ s.eval y) :
    sampleMax v mem x = specM v.Sets mem x := by
  rcases List.exists_cons_of_ne_nil hne with ⟨hd, tl, rfl⟩
  rw [sampleMax_eq_foldl_max v _ x hkeys, List.map_cons,
    foldl_max_zero_of_head_nonneg _ _
      (mul_nonneg (evalAt_nonneg v.Sets hd.1 x hev) (hstr hd (by simp)))]
  simp only [specM, List.map_cons, listMaxD]

/-- `sampleMax` is always nonnegative (the accumulator starts at `0` and
only strict improvements replace it). -/
lemma sampleStep_le (v : FuzzyVariable) (x acc : ℚ) (p : String × ℚ) :
    acc ≤ sampleStep v x acc p := by
  cases hc : lookup v.Sets p.1 with
  | none => rw [sampleStep_none v x acc p hc]
  | some s => rw [sampleStep_some v x acc p s hc]; exact le_max_left _ _

lemma sampleMax_nonneg (v : FuzzyVariable) (mem : List (String × ℚ))
    (x : ℚ) : 0 ≤ sampleMax v mem x := by
  suffices h : ∀ (l : List (String × ℚ)) (a : ℚ), 0 ≤ a →
      0 ≤ l.foldl (sampleStep v x) a by
    exact h mem 0 le_rfl
  intro l
  induction l with
  | nil => intro a ha; exact ha
  | cons hd tl ih =>
    intro a ha
    rw [List.foldl_cons]
    exact ih _ (ha.trans (sampleStep_le v x a hd))

/-- The accumulating pair of the COG loop is the pair of mapped sums. -/
lemma cog_foldl_sums (v : FuzzyVariable) (mem : List (String × ℚ))
    (res : ℕ) (l : List ℕ) (a b : ℚ) :
    l.foldl
      (fun (acc : ℚ × ℚ) i =>
        let x := samplePoint v res i
        let maxMembership := sampleMax v mem x
        (acc.1 + x * maxMembership, acc.2 + maxMembership)) (a, b) =
      (a + (l.map (fun i =>
        samplePoint v res i * sampleMax v mem (samplePoint v res i))).sum,
       b + (l.map (fun i => sampleMax v mem (samplePoint v res i))).sum) := by
  induction l generalizing a b with
  | nil => simp
  | cons hd tl ih =>
    simp only [List.foldl_cons, List.map_cons, List.sum_cons, ih,
      Prod.mk.injEq]
    constructor <;> ring

lemma effectiveResolution_of_pos {R : ℤ} (hR : 0 < R) :
    effectiveResolution R = R.toNat := by
  rw [effectiveResolution, if_neg (not_le.mpr hR)]

/-- C1: for a positive resolution `R` and intended aggregation invariants,
COG defuzzification samples exactly the `R+1` points
`x_i = min + i·(max-min)/R`, computes `m(x_i)` as the maximum over the
aggregation entries of `setEvaluator(x_i)·strength`, and returns
`Σ x_i·m(x_i) / Σ m(x_i)`; it fails exactly when the aggregation map is
empty or `Σ m(x_i) = 0`. -/
theorem c1_defuzzify_cog_spec (v : FuzzyVariable) (mem : List (String × ℚ))
    (R : ℤ) (hR : 0 < R)
    (hkeys : ∀ p ∈ mem, (lookup v.Sets p.1).isSome)
    (hstr : ∀ p ∈ mem, 0 ≤ p.2)
    (hev : ∀ n s, lookup v.Sets n = some s → ∀ y, 0 ≤ s.eval y) :
    (mem = [] →
      defuzzifyCOGWithResolution v mem R = .error noRuleFiredMsg) ∧
    (mem ≠ [] →
      defuzzifyCOGWithResolution v mem R =
        if ((specPoints v.MinValue v.MaxValue R.toNat).map
            (specM v.Sets mem)).sum = 0 then .error noRuleFiredMsg
        else .ok
          (((specPoints v.MinValue v.MaxValue R.toNat).map
              (fun x => x * specM v.Sets mem x)).sum /
            ((specPoints v.MinValue v.MaxValue R.toNat).map
              (specM v.Sets mem)).sum)) := by
  constructor
  · rintro rfl
    rw [defuzzifyCOGWithResolution]
    rfl
  · intro hne
    have hsm : ∀ x, sampleMax v mem x = specM v.Sets mem x := fun x =>
      sampleMax_eq_specM v mem x hne hkeys hstr hev
    have hpts : specPoints v.MinValue v.MaxValue R.toNat =
        (List.range (R.toNat + 1)).map (samplePoint v R.toNat) := by
      rw [specPoints]
      exact List.map_congr_left (fun i _ => rfl)
    rw [defuzzifyCOGWithResolution,
      if_neg (by simp [List.isEmpty_iff, hne]),
      effectiveResolution_of_pos hR, hpts, List.map_map, List.map_map]
    simp only [cog_foldl_sums, zero_add]
    simp only [Function.comp_def, hsm]

/-- A one-set output variable used to instantiate the COG theorem. -/
def c1Var : FuzzyVariable :=
  ⟨"FanSpeed", 0, 10, [("s", ⟨"s", fun _ => 1/2⟩)]⟩

/-- A one-entry aggregation map used to instantiate the COG theorem. -/
def c1Mem : List (String × ℚ) := [("s", 1)]

lemma c1_witness_keys : ∀ p ∈ c1Mem, (lookup c1Var.Sets p.1).isSome := by
  intro p hp
  simp only [c1Mem, List.mem_singleton] at hp
  subst hp
  simp [c1Var, lookup]

lemma c1_witness_str : ∀ p ∈ c1Mem, 0 ≤ p.2 := by
  intro p hp
  simp only [c1Mem, List.mem_singleton] at hp
  subst hp
  norm_num

lemma c1_witness_ev : ∀ n s, lookup c1Var.Sets n = some s →
    ∀ y, 0 ≤ s.eval y := by
  intro n s h y
  simp only [c1Var, lookup] at h
  split at h
  · injection h with h2
    rw [← h2]
    norm_num
  · exact absurd h (by simp)

theorem c1_defuzzify_cog_spec_witness :
    (0 : ℤ) < 2 ∧
    (∀ p ∈ c1Mem, (lookup c1Var.Sets p.1).isSome) ∧
    (∀ p ∈ c1Mem, 0 ≤ p.2) ∧
    (∀ n s, lookup c1Var.Sets n = some s → ∀ y, 0 ≤ s.eval y) ∧
    ((c1Mem = [] →
      defuzzifyCOGWithResolution c1Var c1Mem 2 = .error noRuleFiredMsg) ∧
    (c1Mem ≠ [] →
      defuzzifyCOGWithResolution c1Var c1Mem 2 =
        if ((specPoints c1Var.MinValue c1Var.MaxValue (2 : ℤ).toNat).map
            (specM c1Var.Sets c1Mem)).sum = 0 then .error noRuleFiredMsg
        else .ok
          (((specPoints c1Var.MinValue c1Var.MaxValue (2 : ℤ).toNat).map
              (fun x => x * specM c1Var.Sets c1Mem x)).sum /
            ((specPoints c1Var.MinValue c1Var.MaxValue (2 : ℤ).toNat).map
              (specM c1Var.Sets c1Mem)).sum))) :=
  ⟨by norm_num, c1_witness_keys, c1_witness_str, c1_witness_ev,
    c1_defuzzify_cog_spec c1Var c1Mem 2 (by norm_num) c1_witness_keys
      c1_witness_str c1_witness_ev⟩

/-! ### Maxima of scans: `listMaxD` and `firstMaxIdx` (C3, C4) -/

/-- The index of the first occurrence of `M` in the list (length of the
list when absent). -/
def firstMaxIdx (l : List ℚ) (M : ℚ) : ℕ :=
  match l with
  | [] => 0
  | a :: rest => if a = M then 0 else firstMaxIdx rest M + 1

lemma listMaxD_snoc (l : List ℚ) (a : ℚ) (hne : l ≠ []) :
    listMaxD (l ++ [a]) = max (listMaxD l) a := by
  rcases List.exists_cons_of_ne_nil hne with ⟨x, rest, rfl⟩
  simp [listMaxD, List.foldl_append]

lemma le_foldl_max (l : List ℚ) (x : ℚ) : x ≤ l.foldl max x := by
  induction l generalizing x with
  | nil => exact le_rfl
  | cons hd tl ih => exact (le_max_left x hd).trans (ih (max x hd))

lemma mem_le_foldl_max (l : List ℚ) (x : ℚ) {b : ℚ} (hb : b ∈ l) :
    b ≤ l.foldl max x := by
  induction l generalizing x with
  | nil => cases hb
  | cons hd tl ih =>
    rw [List.foldl_cons]
    rcases List.mem_cons.mp hb with rfl | hb2
    · exact (le_max_right x b).trans (le_foldl_max tl _)
    · exact ih (max x hd) hb2

lemma le_listMaxD {l : List ℚ} {b : ℚ} (hb : b ∈ l) : b ≤ listMaxD l := by
  cases l with
  | nil => cases hb
  | cons hd tl =>
    rcases List.mem_cons.mp hb with rfl | hb2
    · exact le_foldl_max tl b
    · exact mem_le_foldl_max tl hd hb2

lemma foldl_max_mem_cons (l : List ℚ) (x : ℚ) : l.foldl max x ∈ x :: l := by
  induction l generalizing x with
  | nil => simp
  | cons hd tl ih =>
    rw [List.foldl_cons]
    rcases List.mem_cons.mp (ih (max x hd)) with h | h
    · rcases max_choice x hd with hc | hc <;> rw [h, hc] <;> simp
    · simp [h]

lemma listMaxD_mem {l : List ℚ} (hne : l ≠ []) : listMaxD l ∈ l := by
  rcases List.exists_cons_of_ne_nil hne with ⟨x, rest, rfl⟩
  exact foldl_max_mem_cons rest x

lemma firstMaxIdx_append_of_mem (l : List ℚ) (M : ℚ) (hm : M ∈ l)
    (t : List ℚ) : firstMaxIdx (l ++ t) M = firstMaxIdx l M := by
  induction l with
  | nil => cases hm
  | cons a rest ih =>
    by_cases ha : a = M
    · simp [firstMaxIdx, ha]
    · have hm2 : M ∈ rest := by
        rcases List.mem_cons.mp hm with h | h
        · exact absurd h.symm ha
        · exact h
      simp [firstMaxIdx, ha, ih hm2]

lemma firstMaxIdx_append_of_ne (l : List ℚ) (M : ℚ)
    (hl : ∀ b ∈ l, b ≠ M) (t : List ℚ) :
    firstMaxIdx (l ++ t) M = l.length + firstMaxIdx t M := by
  induction l with
  | nil => simp
  | cons a rest ih =>
    have ha : a ≠ M := hl a (by simp)
    rw [List.cons_append, firstMaxIdx, if_neg ha,
      ih (fun b hb => hl b (by simp [hb])), List.length_cons]
    omega

lemma firstMaxIdx_lt_length (l : List ℚ) (M : ℚ) (hm : M ∈ l) :
    firstMaxIdx l M < l.length := by
  induction l with
  | nil => cases hm
  | cons a rest ih =>
    by_cases ha : a = M
    · simp [firstMaxIdx, ha]
    · have hm2 : M ∈ rest := by
        rcases List.mem_cons.mp hm with h | h
        · exact absurd h.symm ha
        · exact h
      simpa [firstMaxIdx, ha] using ih hm2

lemma firstMaxIdx_getD (l : List ℚ) (M : ℚ) (hm : M ∈ l) :
    l.getD (firstMaxIdx l M) 0 = M ∧
    ∀ j < firstMaxIdx l M, l.getD j 0 ≠ M := by
  induction l with
  | nil => cases hm
  | cons a rest ih =>
    by_cases ha : a = M
    · refine ⟨by simp [firstMaxIdx, ha], ?_⟩
      intro j hj
      simp [firstMaxIdx, ha] at hj
    · have hm2 : M ∈ rest := by
        rcases List.mem_cons.mp hm with h | h
        · exact absurd h.symm ha
        · exact h
      refine ⟨by simpa [firstMaxIdx, ha] using (ih hm2).1, ?_⟩
      intro j hj
      rw [firstMaxIdx] at hj
      rw [if_neg ha] at hj
      cases j with
      | zero => simpa using ha
      | succ j2 =>
        have := (ih hm2).2 j2 (by omega)
        simpa using this

/-! ### Scan-state characterisation of the MOM and FOM loops -/

/-- The sampled membership values `m(x_0), …, m(x_k)` as the code computes
them. -/
def scanVals (v : FuzzyVariable) (mem : List (String × ℚ)) (res : ℕ)
    (k : ℕ) : List ℚ :=
  (List.range (k + 1)).map (fun i => sampleMax v mem (samplePoint v res i))

/-- The maximum of `m` over the first `k+1` sample points. -/
def scanMax (v : FuzzyVariable) (mem : List (String × ℚ)) (res : ℕ)
    (k : ℕ) : ℚ :=
  listMaxD (scanVals v mem res k)

/-- The first sample index attaining `scanMax`. -/
def scanArgMax (v : FuzzyVariable) (mem : List (String × ℚ)) (res : ℕ)
    (k : ℕ) : ℕ :=
  firstMaxIdx (scanVals v mem res k) (scanMax v mem res k)

/-- Whether the MOM scan retains sample index `i`: it must come after the
first attainment of the maximum and lie within `epsilon` of it. -/
def momKeep (v : FuzzyVariable) (mem : List (String × ℚ)) (res : ℕ)
    (k : ℕ) (i : ℕ) : Bool :=
  decide (scanArgMax v mem res k < i) &&
  decide (|sampleMax v mem (samplePoint v res i) - scanMax v mem res k| <
    epsilon)

lemma scanVals_succ (v : FuzzyVariable) (mem : List (String × ℚ))
    (res k : ℕ) :
    scanVals v mem res (k + 1) =
      scanVals v mem res k ++ [sampleMax v mem (samplePoint v res (k + 1))] := by
  rw [scanVals, scanVals, List.range_succ, List.map_append, List.map_cons,
    List.map_nil]

lemma scanVals_ne_nil (v : FuzzyVariable) (mem : List (String × ℚ))
    (res k : ℕ) : scanVals v mem res k ≠ [] := by
  simp [scanVals, List.range_succ]

lemma scanVals_length (v : FuzzyVariable) (mem : List (String × ℚ))
    (res k : ℕ) : (scanVals v mem res k).length = k + 1 := by
  simp [scanVals]

lemma scanMax_mem (v : FuzzyVariable) (mem : List (String × ℚ))
    (res k : ℕ) : scanMax v mem res k ∈ scanVals v mem res k :=
  listMaxD_mem (scanVals_ne_nil v mem res k)

lemma scanMax_succ (v : FuzzyVariable) (mem : List (String × ℚ))
    (res k : ℕ) :
    scanMax v mem res (k + 1) =
      max (scanMax v mem res k)
        (sampleMax v mem (samplePoint v res (k + 1))) := by
  rw [scanMax, scanVals_succ, listMaxD_snoc _ _ (scanVals_ne_nil v mem res k)]
  rfl

lemma scanArgMax_le (v : FuzzyVariable) (mem : List (String × ℚ))
    (res k : ℕ) : scanArgMax v mem res k ≤ k := by
  have := firstMaxIdx_lt_length _ _ (scanMax_mem v mem res k)
  rw [scanVals_length] at this
  rw [scanArgMax]
  omega

/-- On a strict improvement, the new maximum is attained first at the new
index. -/
lemma scanArgMax_succ_of_gt (v : FuzzyVariable) (mem : List (String × ℚ))
    (res k : ℕ)
    (hgt : scanMax v mem res k < sampleMax v mem (samplePoint v res (k + 1))) :
    scanArgMax v mem res (k + 1) = k + 1 ∧
    scanMax v mem res (k + 1) =
      sampleMax v mem (samplePoint v res (k + 1)) := by
  have hM : scanMax v mem res (k + 1) =
      sampleMax v mem (samplePoint v res (k + 1)) := by
    rw [scanMax_succ, max_eq_right hgt.le]
  refine ⟨?_, hM⟩
  rw [scanArgMax, scanVals_succ, hM,
    firstMaxIdx_append_of_ne _ _
      (fun b hb => ne_of_lt (lt_of_le_of_lt (le_listMaxD hb) hgt)),
    scanVals_length]
  simp [firstMaxIdx]

/-- Without a strict improvement, both the maximum and its first
attainment index are unchanged. -/
lemma scanArgMax_succ_of_le (v : FuzzyVariable) (mem : List (String × ℚ))
    (res k : ℕ)
    (hle : sampleMax v mem (samplePoint v res (k + 1)) ≤ scanMax v mem res k) :
    scanArgMax v mem res (k + 1) = scanArgMax v mem res k ∧
    scanMax v mem res (k + 1) = scanMax v mem res k := by
  have hM : scanMax v mem res (k + 1) = scanMax v mem res k := by
    rw [scanMax_succ, max_eq_left hle]
  refine ⟨?_, hM⟩
  rw [scanArgMax, scanVals_succ, hM,
    firstMaxIdx_append_of_mem _ _ (scanMax_mem v mem res k)]
  rfl

lemma scanMax_nonneg (v : FuzzyVariable) (mem : List (String × ℚ))
    (res k : ℕ) : 0 ≤ scanMax v mem res k := by
  rcases List.mem_map.mp (scanMax_mem v mem res k) with ⟨i, _, hi⟩
  rw [← hi]
  exact sampleMax_nonneg v mem _

lemma list_range_one : List.range 1 = [0] := by decide

lemma scanVals_zero (v : FuzzyVariable) (mem : List (String × ℚ))
    (res : ℕ) :
    scanVals v mem res 0 = [sampleMax v mem (samplePoint v res 0)] := by
  rw [scanVals]
  simp [list_range_one]

lemma scanMax_zero (v : FuzzyVariable) (mem : List (String × ℚ))
    (res : ℕ) :
    scanMax v mem res 0 = sampleMax v mem (samplePoint v res 0) := by
  rw [scanMax, scanVals_zero]
  rfl

lemma scanArgMax_zero (v : FuzzyVariable) (mem : List (String × ℚ))
    (res : ℕ) : scanArgMax v mem res 0 = 0 := by
  rw [scanArgMax, scanVals_zero, scanMax_zero]
  simp [firstMaxIdx]

lemma momStep_reset (v : FuzzyVariable) (mem : List (String × ℚ))
    (res : ℕ) (acc : List ℚ × ℚ) (i : ℕ)
    (h : i = 0 ∨ acc.2 < sampleMax v mem (samplePoint v res i)) :
    momStep v mem res acc i =
      ([samplePoint v res i], sampleMax v mem (samplePoint v res i)) := by
  simp only [momStep]
  rw [if_pos h]

lemma momStep_append (v : FuzzyVariable) (mem : List (String × ℚ))
    (res : ℕ) (acc : List ℚ × ℚ) (i : ℕ)
    (h1 : ¬(i = 0 ∨ acc.2 < sampleMax v mem (samplePoint v res i)))
    (h2 : |sampleMax v mem (samplePoint v res i) - acc.2| < epsilon) :
    momStep v mem res acc i = (acc.1 ++ [samplePoint v res i], acc.2) := by
  simp only [momStep]
  rw [if_neg h1, if_pos h2]

lemma momStep_skip (v : FuzzyVariable) (mem : List (String × ℚ))
    (res : ℕ) (acc : List ℚ × ℚ) (i : ℕ)
    (h1 : ¬(i = 0 ∨ acc.2 < sampleMax v mem (samplePoint v res i)))
    (h2 : ¬|sampleMax v mem (samplePoint v res i) - acc.2| < epsilon) :
    momStep v mem res acc i = acc := by
  simp only [momStep]
  rw [if_neg h1, if_neg h2]

/-- The MOM scan state after indices `0..k`: the collected points are the
first attainment of the running maximum followed by the later points
within `epsilon` of it, and the running maximum is the prefix maximum. -/
lemma mom_scan_eq (v : FuzzyVariable) (mem : List (String × ℚ))
    (res : ℕ) (k : ℕ) :
    (List.range (k + 1)).foldl (momStep v mem res) ([], 0) =
      (samplePoint v res (scanArgMax v mem res k) ::
        (((List.range (k + 1)).filter (momKeep v mem res k)).map
          (samplePoint v res)),
       scanMax v mem res k) := by
  induction k with
  | zero =>
    rw [show (0 : ℕ) + 1 = 1 from rfl, list_range_one, List.foldl_cons,
      List.foldl_nil, momStep_reset v mem res ([], 0) 0 (Or.inl rfl)]
    have hfil : ([0] : List ℕ).filter (momKeep v mem res 0) = [] := by
      simp [List.filter, momKeep, scanArgMax_zero]
    rw [hfil, scanArgMax_zero, scanMax_zero]
    rfl
  | succ k ih =>
    rw [List.range_succ, List.foldl_append, ih, List.foldl_cons,
      List.foldl_nil]
    by_cases hgt : scanMax v mem res k <
        sampleMax v mem (samplePoint v res (k + 1))
    · obtain ⟨hL, hM⟩ := scanArgMax_succ_of_gt v mem res k hgt
      have hfil : (List.range (k + 1) ++ [k + 1]).filter
          (momKeep v mem res (k + 1)) = [] := by
        rw [List.filter_eq_nil_iff]
        intro i hi
        simp only [List.mem_append, List.mem_range,
          List.mem_singleton] at hi
        rw [momKeep, hL]
        simp only [Bool.and_eq_true, decide_eq_true_eq, not_and]
        intro hcon
        omega
      rw [momStep_reset v mem res
        (samplePoint v res (scanArgMax v mem res k) ::
          (((List.range (k + 1)).filter (momKeep v mem res k)).map
            (samplePoint v res)),
         scanMax v mem res k) (k + 1) (Or.inr hgt), hfil, hL, hM, List.map_nil]
    · push_neg at hgt
      obtain ⟨hL, hM⟩ := scanArgMax_succ_of_le v mem res k hgt
      have hcond : ¬(k + 1 = 0 ∨
          (samplePoint v res (scanArgMax v mem res k) ::
            (((List.range (k + 1)).filter (momKeep v mem res k)).map
              (samplePoint v res)),
           scanMax v mem res k).2 <
            sampleMax v mem (samplePoint v res (k + 1))) := by
        push_neg
        exact ⟨Nat.succ_ne_zero k, hgt⟩
      have hkeepfun : momKeep v mem res (k + 1) = momKeep v mem res k := by
        funext i
        rw [momKeep, momKeep, hL, hM]
      by_cases htol : |sampleMax v mem (samplePoint v res (k + 1)) -
          scanMax v mem res k| < epsilon
      · have hkeepnew : momKeep v mem res k (k + 1) = true := by
          rw [momKeep]
          simp only [Bool.and_eq_true, decide_eq_true_eq]
          exact ⟨by have := scanArgMax_le v mem res k; omega, htol⟩
        have hfil : (List.range (k + 1) ++ [k + 1]).filter
            (momKeep v mem res (k + 1)) =
            (List.range (k + 1)).filter (momKeep v mem res k) ++ [k + 1] := by
          rw [hkeepfun, List.filter_append]
          simp [List.filter, hkeepnew]
        rw [momStep_append v mem res
          (samplePoint v res (scanArgMax v mem res k) ::
          (((List.range (k + 1)).filter (momKeep v mem res k)).map
            (samplePoint v res)),
         scanMax v mem res k) (k + 1) hcond htol, hfil, hL, hM, List.map_append]
        simp
      · have hkeepnew : momKeep v mem res k (k + 1) = false := by
          rw [momKeep]
          simp [htol]
        have hfil : (List.range (k + 1) ++ [k + 1]).filter
            (momKeep v mem res (k + 1)) =
            (List.range (k + 1)).filter (momKeep v mem res k) := by
          rw [hkeepfun, List.filter_append]
          simp [List.filter, hkeepnew]
        rw [momStep_skip v mem res
          (samplePoint v res (scanArgMax v mem res k) ::
          (((List.range (k + 1)).filter (momKeep v mem res k)).map
            (samplePoint v res)),
         scanMax v mem res k) (k + 1) hcond htol, hfil, hL, hM]

lemma fomStep_update (v : FuzzyVariable) (mem : List (String × ℚ))
    (res : ℕ) (acc : ℚ × ℚ) (i : ℕ)
    (h : acc.1 < sampleMax v mem (samplePoint v res i)) :
    fomStep v mem res acc i =
      (sampleMax v mem (samplePoint v res i), samplePoint v res i) := by
  simp only [fomStep]
  rw [if_pos h]

lemma fomStep_skip (v : FuzzyVariable) (mem : List (String × ℚ))
    (res : ℕ) (acc : ℚ × ℚ) (i : ℕ)
    (h : ¬acc.1 < sampleMax v mem (samplePoint v res i)) :
    fomStep v mem res acc i = acc := by
  simp only [fomStep]
  rw [if_neg h]

/-- The FOM scan state after indices `0..k`: the running maximum paired
with the first sample point attaining it (`MinValue` while the maximum is
still `0`). -/
lemma fom_scan_eq (v : FuzzyVariable) (mem : List (String × ℚ))
    (res : ℕ) (k : ℕ) :
    (List.range (k + 1)).foldl (fomStep v mem res) (0, v.MinValue) =
      (scanMax v mem res k,
        if scanMax v mem res k = 0 then v.MinValue
        else samplePoint v res (scanArgMax v mem res k)) := by
  induction k with
  | zero =>
    rw [show (0 : ℕ) + 1 = 1 from rfl, list_range_one, List.foldl_cons,
      List.foldl_nil]
    by_cases h0 : (0 : ℚ) < sampleMax v mem (samplePoint v res 0)
    · rw [fomStep_update v mem res (0, v.MinValue) 0 h0, scanMax_zero,
        scanArgMax_zero, if_neg (ne_of_gt h0)]
    · have hm0 : sampleMax v mem (samplePoint v res 0) = 0 :=
        le_antisymm (not_lt.mp h0) (sampleMax_nonneg v mem _)
      rw [fomStep_skip v mem res (0, v.MinValue) 0 h0, scanMax_zero, hm0,
        if_pos rfl]
  | succ k ih =>
    rw [List.range_succ, List.foldl_append, ih, List.foldl_cons,
      List.foldl_nil]
    by_cases hgt : scanMax v mem res k <
        sampleMax v mem (samplePoint v res (k + 1))
    · obtain ⟨hL, hM⟩ := scanArgMax_succ_of_gt v mem res k hgt
      rw [fomStep_update v mem res
        (scanMax v mem res k,
          if scanMax v mem res k = 0 then v.MinValue
          else samplePoint v res (scanArgMax v mem res k)) (k + 1) hgt,
        hL, hM,
        if_neg (ne_of_gt (lt_of_le_of_lt (scanMax_nonneg v mem res k) hgt))]
    · push_neg at hgt
      obtain ⟨hL, hM⟩ := scanArgMax_succ_of_le v mem res k hgt
      rw [fomStep_skip v mem res
        (scanMax v mem res k,
          if scanMax v mem res k = 0 then v.MinValue
          else samplePoint v res (scanArgMax v mem res k)) (k + 1)
        (not_lt.mpr hgt), hL, hM]

/-! ### Spec-side maxima over the sampled points -/

/-- The sample points expressed spec-side. -/
lemma specPoints_eq_map (v : FuzzyVariable) (R : ℕ) :
    specPoints v.MinValue v.MaxValue R =
      (List.range (R + 1)).map (samplePoint v R) := by
  rw [specPoints]
  exact List.map_congr_left (fun i _ => rfl)

/-- The spec's `m(x_i)` at every sample point. -/
def specVals (v : FuzzyVariable) (mem : List (String × ℚ)) (R : ℕ) :
    List ℚ :=
  (specPoints v.MinValue v.MaxValue R).map (specM v.Sets mem)

/-- The maximum of the spec's `m` over the scan. -/
def specMaxVal (v : FuzzyVariable) (mem : List (String × ℚ)) (R : ℕ) : ℚ :=
  listMaxD (specVals v mem R)

/-- The first sample index attaining the spec's maximum. -/
def specArgMax (v : FuzzyVariable) (mem : List (String × ℚ)) (R : ℕ) : ℕ :=
  firstMaxIdx (specVals v mem R) (specMaxVal v mem R)

/-- The point set MOM actually averages: the first attainment of the
maximum, followed by the later sample points within `epsilon` of it. -/
def specMomPoints (v : FuzzyVariable) (mem : List (String × ℚ)) (R : ℕ) :
    List ℚ :=
  samplePoint v R (specArgMax v mem R) ::
    (((List.range (R + 1)).filter (fun i =>
      decide (specArgMax v mem R < i) &&
      decide (|specM v.Sets mem (samplePoint v R i) - specMaxVal v mem R| <
        epsilon))).map (samplePoint v R))

lemma specVals_eq_scanVals (v : FuzzyVariable) (mem : List (String × ℚ))
    (R : ℕ) (hne : mem ≠ [])
    (hkeys : ∀ p ∈ mem, (lookup v.Sets p.1).isSome)
    (hstr : ∀ p ∈ mem, 0 ≤ p.2)
    (hev : ∀ n s, lookup v.Sets n = some s → ∀ y, 0 ≤ s.eval y) :
    specVals v mem R = scanVals v mem R R := by
  rw [specVals, scanVals, specPoints_eq_map, List.map_map]
  exact List.map_congr_left (fun i _ => by
    simp only [Function.comp_apply]
    exact (sampleMax_eq_specM v mem _ hne hkeys hstr hev).symm)

lemma specVals_ne_nil (v : FuzzyVariable) (mem : List (String × ℚ))
    (R : ℕ) : specVals v mem R ≠ [] := by
  simp [specVals, specPoints]

/-- C3 (amended): MOM defuzzification fails exactly when the aggregation
map is empty or the maximum `M` of `m` over the scan is `0`; otherwise it
returns the arithmetic mean of the point set consisting of the FIRST
sample point attaining `M` followed by the LATER sample points within
`1e-9` of `M` — sample points BEFORE the first attainment are discarded
even when they lie within the tolerance, because every strict improvement
of the running maximum resets the collected set. -/
theorem c3_defuzzify_mom_spec (v : FuzzyVariable) (mem : List (String × ℚ))
    (R : ℤ) (hR : 0 < R)
    (hkeys : ∀ p ∈ mem, (lookup v.Sets p.1).isSome)
    (hstr : ∀ p ∈ mem, 0 ≤ p.2)
    (hev : ∀ n s, lookup v.Sets n = some s → ∀ y, 0 ≤ s.eval y) :
    (mem = [] →
      defuzzifyMOMWithResolution v mem R = .error noRuleFiredMsg) ∧
    (mem ≠ [] →
      (specMaxVal v mem R.toNat = 0 →
        defuzzifyMOMWithResolution v mem R = .error noRuleFiredMsg) ∧
      (specMaxVal v mem R.toNat ≠ 0 →
        defuzzifyMOMWithResolution v mem R =
          .ok ((specMomPoints v mem R.toNat).sum /
            ((specMomPoints v mem R.toNat).length : ℚ)))) := by
  constructor
  · rintro rfl
    rw [defuzzifyMOMWithResolution]
    rfl
  · intro hne
    have hsm : ∀ x, sampleMax v mem x = specM v.Sets mem x := fun x =>
      sampleMax_eq_specM v mem x hne hkeys hstr hev
    have hvals := specVals_eq_scanVals v mem R.toNat hne hkeys hstr hev
    have hM : specMaxVal v mem R.toNat = scanMax v mem R.toNat R.toNat := by
      rw [specMaxVal, hvals]
      rfl
    have hA : specArgMax v mem R.toNat =
        scanArgMax v mem R.toNat R.toNat := by
      rw [specArgMax, hvals, hM]
      rfl
    have hfil : (List.range (R.toNat + 1)).filter (fun i =>
        decide (specArgMax v mem R.toNat < i) &&
        decide (|specM v.Sets mem (samplePoint v R.toNat i) -
          specMaxVal v mem R.toNat| < epsilon)) =
        (List.range (R.toNat + 1)).filter
          (momKeep v mem R.toNat R.toNat) := by
      refine List.filter_congr (fun i _ => ?_)
      rw [momKeep, hA, hM, hsm (samplePoint v R.toNat i)]
    have hpts : specMomPoints v mem R.toNat =
        samplePoint v R.toNat (scanArgMax v mem R.toNat R.toNat) ::
          (((List.range (R.toNat + 1)).filter
            (momKeep v mem R.toNat R.toNat)).map
              (samplePoint v R.toNat)) := by
      rw [specMomPoints, hfil, hA]
    rw [defuzzifyMOMWithResolution, if_neg (by simp [List.isEmpty_iff, hne]),
      effectiveResolution_of_pos hR]
    simp only [mom_scan_eq]
    simp only [List.isEmpty_cons, Bool.false_eq_true, false_or]
    constructor
    · intro h0
      rw [if_pos (hM ▸ h0)]
    · intro h0
      rw [if_neg (fun hcon => h0 (by rw [hM]; exact hcon)), hpts]

/-- C4 (amended): FOM defuzzification fails exactly when the aggregation
map is empty or every `m(x_i)` is `0`; otherwise it returns the FIRST
sample point (in ascending order) ATTAINING the maximum of `m` over the
scan — equivalently, the last point at which the running maximum strictly
increases — not the first point whose `m` exceeds all previously seen
values. -/
theorem c4_defuzzify_fom_spec (v : FuzzyVariable) (mem : List (String × ℚ))
    (R : ℤ) (hR : 0 < R)
    (hkeys : ∀ p ∈ mem, (lookup v.Sets p.1).isSome)
    (hstr : ∀ p ∈ mem, 0 ≤ p.2)
    (hev : ∀ n s, lookup v.Sets n = some s → ∀ y, 0 ≤ s.eval y) :
    (mem = [] →
      defuzzifyFOMWithResolution v mem R = .error noRuleFiredMsg) ∧
    (mem ≠ [] →
      (specMaxVal v mem R.toNat = 0 →
        defuzzifyFOMWithResolution v mem R = .error noRuleFiredMsg) ∧
      (specMaxVal v mem R.toNat ≠ 0 →
        defuzzifyFOMWithResolution v mem R =
          .ok (samplePoint v R.toNat (specArgMax v mem R.toNat)) ∧
        (specVals v mem R.toNat).getD (specArgMax v mem R.toNat) 0 =
          specMaxVal v mem R.toNat ∧
        ∀ j < specArgMax v mem R.toNat,
          (specVals v mem R.toNat).getD j 0 ≠ specMaxVal v mem R.toNat)) := by
  constructor
  · rintro rfl
    rw [defuzzifyFOMWithResolution]
    rfl
  · intro hne
    have hvals := specVals_eq_scanVals v mem R.toNat hne hkeys hstr hev
    have hM : specMaxVal v mem R.toNat = scanMax v mem R.toNat R.toNat := by
      rw [specMaxVal, hvals]
      rfl
    have hA : specArgMax v mem R.toNat =
        scanArgMax v mem R.toNat R.toNat := by
      rw [specArgMax, hvals, hM]
      rfl
    have hmax_mem : specMaxVal v mem R.toNat ∈ specVals v mem R.toNat :=
      listMaxD_mem (specVals_ne_nil v mem R.toNat)
    constructor
    · intro h0
      rw [defuzzifyFOMWithResolution,
        if_neg (by simp [List.isEmpty_iff, hne]),
        effectiveResolution_of_pos hR]
      simp only [fom_scan_eq]
      rw [if_pos (hM ▸ h0)]
    · intro h0
      refine ⟨?_, (firstMaxIdx_getD _ _ hmax_mem).1,
        (firstMaxIdx_getD _ _ hmax_mem).2⟩
      rw [defuzzifyFOMWithResolution,
        if_neg (by simp [List.isEmpty_iff, hne]),
        effectiveResolution_of_pos hR]
      simp only [fom_scan_eq]
      have h0s : ¬scanMax v mem R.toNat R.toNat = 0 := fun hcon =>
        h0 (by rw [hM]; exact hcon)
      rw [if_neg h0s, if_neg h0s, hA]

/-- A two-point FOM scenario: `m` rises from `0.2` to `0.5`. -/
def c4Var : FuzzyVariable :=
  ⟨"F", 0, 1, [("s", ⟨"s", fun x => if x < 1 then 1/5 else 1/2⟩)]⟩

/-- The aggregation map for the FOM counterexample. -/
def c4Mem : List (String × ℚ) := [("s", 1)]

/-- C4 counterexample: with `m(x_0) = 0.2` and `m(x_1) = 0.5` over domain
`[0,1]` at resolution 1, the first sample point whose membership strictly
exceeds all previously seen values is `x_0 = 0` (with `m(x_0) = 0.2 > 0`),
yet FOM returns `x_1 = 1` — the first point attaining the global maximum,
not the first strict improvement. -/
theorem c4_counterexample_fom_not_first_improvement :
    defuzzifyFOMWithResolution c4Var c4Mem 1 = .ok 1 ∧
    samplePoint c4Var 1 0 = 0 ∧
    samplePoint c4Var 1 1 = 1 ∧
    specM c4Var.Sets c4Mem (samplePoint c4Var 1 0) = 1/5 ∧
    specM c4Var.Sets c4Mem (samplePoint c4Var 1 1) = 1/2 ∧
    (0 : ℚ) < 1/5 := by
  refine ⟨?_, ?_, ?_, ?_, ?_, by norm_num⟩
  · norm_num [defuzzifyFOMWithResolution, effectiveResolution,
      DefaultResolution, fomStep, sampleMax, sampleStep, samplePoint,
      lookup, c4Var, c4Mem, List.range_succ, List.range_zero]
  · norm_num [samplePoint, c4Var]
  · norm_num [samplePoint, c4Var]
  · norm_num [specM, evalAt, listMaxD, lookup, c4Var, c4Mem, samplePoint]
  · norm_num [specM, evalAt, listMaxD, lookup, c4Var, c4Mem, samplePoint]

/-- A two-point MOM scenario built from a triangular set whose rising edge
makes `m(x_0)` lie within `5e-10` of `m(x_1) = 1`. -/
def c3Var : FuzzyVariable :=
  ⟨"F", 0, 1, [("s", ⟨"s", triangularEval (-(1999999999 : ℚ)) 1 2⟩)]⟩

/-- The aggregation map for the MOM counterexample. -/
def c3Mem : List (String × ℚ) := [("s", 1)]

/-- C3 counterexample: over domain `[0,1]` at resolution 1, both sample
points lie within the `1e-9` tolerance of the scan maximum (their
memberships are `1999999999/2000000000` and `1`), so the claimed point set
is `{0, 1}` with mean `1/2`; but the scan resets its collected points on
the strict improvement at `x_1`, so MOM returns `1`. -/
theorem c3_counterexample_mom_drops_tolerated_point :
    defuzzifyMOMWithResolution c3Var c3Mem 1 = .ok 1 ∧
    samplePoint c3Var 1 0 = 0 ∧
    samplePoint c3Var 1 1 = 1 ∧
    |specM c3Var.Sets c3Mem (samplePoint c3Var 1 0) -
      specMaxVal c3Var c3Mem 1| < epsilon ∧
    |specM c3Var.Sets c3Mem (samplePoint c3Var 1 1) -
      specMaxVal c3Var c3Mem 1| < epsilon ∧
    specM c3Var.Sets c3Mem (samplePoint c3Var 1 0) ≠
      specM c3Var.Sets c3Mem (samplePoint c3Var 1 1) ∧
    ((0 : ℚ) + 1) / 2 ≠ 1 := by
  have hm0 : specM c3Var.Sets c3Mem (samplePoint c3Var 1 0) =
      1999999999/2000000000 := by
    norm_num [specM, evalAt, listMaxD, lookup, c3Var, c3Mem, samplePoint,
      triangularEval]
  have hm1 : specM c3Var.Sets c3Mem (samplePoint c3Var 1 1) = 1 := by
    norm_num [specM, evalAt, listMaxD, lookup, c3Var, c3Mem, samplePoint,
      triangularEval]
  have hmax : specMaxVal c3Var c3Mem 1 = 1 := by
    norm_num [specMaxVal, specVals, specPoints, listMaxD, List.range_succ,
      List.range_zero, specM, evalAt, lookup, c3Var, c3Mem, triangularEval]
  refine ⟨?_, by norm_num [samplePoint, c3Var],
    by norm_num [samplePoint, c3Var], ?_, ?_, ?_, by norm_num⟩
  · norm_num [defuzzifyMOMWithResolution, effectiveResolution,
      DefaultResolution, momStep, sampleMax, sampleStep, samplePoint,
      lookup, c3Var, c3Mem, List.range_succ, List.range_zero,
      triangularEval, epsilon]
  · rw [hm0, hmax, epsilon, abs_sub_lt_iff]
    norm_num
  · rw [hm1, hmax, epsilon, abs_sub_lt_iff]
    norm_num
  · rw [hm0, hm1]
    norm_num

theorem c3_defuzzify_mom_spec_witness :
    (0 : ℤ) < 2 ∧
    (∀ p ∈ c1Mem, (lookup c1Var.Sets p.1).isSome) ∧
    (∀ p ∈ c1Mem, 0 ≤ p.2) ∧
    (∀ n s, lookup c1Var.Sets n = some s → ∀ y, 0 ≤ s.eval y) ∧
    ((c1Mem = [] →
      defuzzifyMOMWithResolution c1Var c1Mem 2 = .error noRuleFiredMsg) ∧
    (c1Mem ≠ [] →
      (specMaxVal c1Var c1Mem (2 : ℤ).toNat = 0 →
        defuzzifyMOMWithResolution c1Var c1Mem 2 = .error noRuleFiredMsg) ∧
      (specMaxVal c1Var c1Mem (2 : ℤ).toNat ≠ 0 →
        defuzzifyMOMWithResolution c1Var c1Mem 2 =
          .ok ((specMomPoints c1Var c1Mem (2 : ℤ).toNat).sum /
            ((specMomPoints c1Var c1Mem (2 : ℤ).toNat).length : ℚ))))) :=
  ⟨by norm_num, c1_witness_keys, c1_witness_str, c1_witness_ev,
    c3_defuzzify_mom_spec c1Var c1Mem 2 (by norm_num) c1_witness_keys
      c1_witness_str c1_witness_ev⟩

theorem c4_defuzzify_fom_spec_witness :
    (0 : ℤ) < 2 ∧
    (∀ p ∈ c1Mem, (lookup c1Var.Sets p.1).isSome) ∧
    (∀ p ∈ c1Mem, 0 ≤ p.2) ∧
    (∀ n s, lookup c1Var.Sets n = some s → ∀ y, 0 ≤ s.eval y) ∧
    ((c1Mem = [] →
      defuzzifyFOMWithResolution c1Var c1Mem 2 = .error noRuleFiredMsg) ∧
    (c1Mem ≠ [] →
      (specMaxVal c1Var c1Mem (2 : ℤ).toNat = 0 →
        defuzzifyFOMWithResolution c1Var c1Mem 2 = .error noRuleFiredMsg) ∧
      (specMaxVal c1Var c1Mem (2 : ℤ).toNat ≠ 0 →
        defuzzifyFOMWithResolution c1Var c1Mem 2 =
          .ok (samplePoint c1Var (2 : ℤ).toNat
            (specArgMax c1Var c1Mem (2 : ℤ).toNat)) ∧
        (specVals c1Var c1Mem (2 : ℤ).toNat).getD
            (specArgMax c1Var c1Mem (2 : ℤ).toNat) 0 =
          specMaxVal c1Var c1Mem (2 : ℤ).toNat ∧
        ∀ j < specArgMax c1Var c1Mem (2 : ℤ).toNat,
          (specVals c1Var c1Mem (2 : ℤ).toNat).getD j 0 ≠
            specMaxVal c1Var c1Mem (2 : ℤ).toNat))) :=
  ⟨by norm_num, c1_witness_keys, c1_witness_str, c1_witness_ev,
    c4_defuzzify_fom_spec c1Var c1Mem 2 (by norm_num) c1_witness_keys
      c1_witness_str c1_witness_ev⟩

/-! ### LOM/SOM aliasing (C8) -/

lemma dispatchDefuzz_fom_name (v : FuzzyVariable)
    (mem : List (String × ℚ)) (res : ℤ) :
    dispatchDefuzz "fom" v mem res =
      defuzzifyFOMWithResolution v mem res := by
  rw [dispatchDefuzz, if_neg (by decide), if_neg (by decide),
    if_pos (by decide)]

lemma dispatchDefuzz_lom_name (v : FuzzyVariable)
    (mem : List (String × ℚ)) (res : ℤ) :
    dispatchDefuzz "lom" v mem res =
      defuzzifyFOMWithResolution v mem res := by
  rw [dispatchDefuzz, if_neg (by decide), if_neg (by decide),
    if_pos (by decide)]

lemma dispatchDefuzz_som_name (v : FuzzyVariable)
    (mem : List (String × ℚ)) (res : ℤ) :
    dispatchDefuzz "som" v mem res =
      defuzzifyFOMWithResolution v mem res := by
  rw [dispatchDefuzz, if_neg (by decide), if_neg (by decide),
    if_pos (by decide)]

lemma defuzzAll_lom_fom (res : ℤ)
    (agg : List (String × List (String × ℚ)))
    (vars : List (String × FuzzyVariable)) :
    defuzzAll "lom" res agg vars = defuzzAll "fom" res agg vars := by
  induction vars with
  | nil => rfl
  | cons p rest ih =>
    cases p with
    | mk n v =>
      rw [defuzzAll, defuzzAll, dispatchDefuzz_lom_name,
        dispatchDefuzz_fom_name, ih]

lemma defuzzAll_som_fom (res : ℤ)
    (agg : List (String × List (String × ℚ)))
    (vars : List (String × FuzzyVariable)) :
    defuzzAll "som" res agg vars = defuzzAll "fom" res agg vars := by
  induction vars with
  | nil => rfl
  | cons p rest ih =>
    cases p with
    | mk n v =>
      rw [defuzzAll, defuzzAll, dispatchDefuzz_som_name,
        dispatchDefuzz_fom_name, ih]

lemma buildMembershipMap_set_method (fis : MamdaniInferenceSystem)
    (m : String) (inputs : List (String × ℚ)) :
    buildMembershipMap { fis with DefuzzMethod := m } inputs =
      buildMembershipMap fis inputs := rfl

/-- C8: for every engine configuration and inputs map, `Infer` with
method "lom" or "som" produces exactly the same result (outputs and error
behaviour) as with method "fom": all three names dispatch to the same
first-of-maximum loop. -/
theorem c8_lom_som_alias_fom (fis : MamdaniInferenceSystem)
    (inputs : List (String × ℚ)) :
    Infer { fis with DefuzzMethod := "lom" } inputs =
      Infer { fis with DefuzzMethod := "fom" } inputs ∧
    Infer { fis with DefuzzMethod := "som" } inputs =
      Infer { fis with DefuzzMethod := "fom" } inputs := by
  constructor
  · simp only [Infer]
    simp only [defuzzAll_lom_fom, buildMembershipMap_set_method]
  · simp only [Infer]
    simp only [defuzzAll_som_fom, buildMembershipMap_set_method]

/-! ### Unconfigured extra inputs are ignored (C10) -/

lemma lookup_append {α : Type} (l1 l2 : List (String × α)) (k : String) :
    lookup (l1 ++ l2) k =
      match lookup l1 k with
      | some x => some x
      | none => lookup l2 k := by
  induction l1 with
  | nil => simp [lookup]
  | cons p rest ih =>
    by_cases hp : p.1 = k
    · simp [lookup, hp]
    · simp [lookup, hp, ih]

lemma lookup_isSome_of_mem {α : Type} {m : List (String × α)} {k : String}
    {v : α} (h : (k, v) ∈ m) : (lookup m k).isSome := by
  induction m with
  | nil => cases h
  | cons p rest ih =>
    by_cases hp : p.1 = k
    · simp [lookup, hp]
    · rw [lookup, if_neg hp]
      rcases List.mem_cons.mp h with rfl | h2
      · exact absurd rfl hp
      · exact ih h2

lemma lookup_eq_none_of_keys {α : Type} (m : List (String × α))
    (k : String) (h : ∀ p ∈ m, p.1 ≠ k) : lookup m k = none := by
  induction m with
  | nil => rfl
  | cons p rest ih =>
    rw [lookup, if_neg (h p (by simp))]
    exact ih (fun q hq => h q (by simp [hq]))

lemma validateInputs_congr (vars : List (String × FuzzyVariable))
    (i1 i2 : List (String × ℚ))
    (h : ∀ p ∈ vars, lookup i1 p.1 = lookup i2 p.1) :
    validateInputs vars i1 = validateInputs vars i2 := by
  induction vars with
  | nil => rfl
  | cons p rest ih =>
    cases p with
    | mk n v =>
      have hn := h (n, v) (by simp)
      cases hv : lookup i2 n with
      | none => simp [validateInputs, hn, hv]
      | some value =>
        by_cases hb : value < v.MinValue ∨ value > v.MaxValue
        · simp [validateInputs, hn, hv, hb]
        · simp [validateInputs, hn, hv, hb,
            ih (fun q hq => h q (by simp [hq]))]

lemma buildMembershipMap_append (fis : MamdaniInferenceSystem)
    (inputs extras : List (String × ℚ))
    (hx : ∀ p ∈ extras, lookup fis.InputVariables p.1 = none) :
    buildMembershipMap fis (inputs ++ extras) =
      buildMembershipMap fis inputs := by
  rw [buildMembershipMap, buildMembershipMap, List.filterMap_append]
  have hnil : extras.filterMap (fun p =>
      (lookup fis.InputVariables p.1).map (fun inputVar =>
        (p.1, inputVar.Fuzzify p.2))) = [] := by
    rw [List.filterMap_eq_nil_iff]
    intro p hp
    rw [hx p hp]
    rfl
  rw [hnil, List.append_nil]

/-- C10: appending entries whose keys are not configured input variable
names — with arbitrary values, in or out of any domain — leaves `Infer`'s
result unchanged: such entries are neither bounds-checked nor
fuzzified. -/
theorem c10_extra_inputs_ignored (fis : MamdaniInferenceSystem)
    (inputs extras : List (String × ℚ))
    (hx : ∀ p ∈ extras, lookup fis.InputVariables p.1 = none) :
    Infer fis (inputs ++ extras) = Infer fis inputs := by
  have hval : validateInputs fis.InputVariables (inputs ++ extras) =
      validateInputs fis.InputVariables inputs := by
    refine validateInputs_congr _ _ _ (fun p hp => ?_)
    rw [lookup_append]
    cases hi : lookup inputs p.1 with
    | some x => rfl
    | none =>
      have hkey : ∀ q ∈ extras, q.1 ≠ p.1 := by
        intro q hq hcon
        have h1 := hx q hq
        rw [hcon] at h1
        cases p with
        | mk n v =>
          have h2 := lookup_isSome_of_mem hp
          rw [h1] at h2
          cases h2
      rw [lookup_eq_none_of_keys extras p.1 hkey]
  rw [Infer, Infer, hval, buildMembershipMap_append fis inputs extras hx]

theorem c10_extra_inputs_ignored_witness :
    (∀ p ∈ [(("Humidity" : String), (9999 : ℚ))],
      lookup (MamdaniInferenceSystem.InputVariables
        ⟨[("T", c1Var)], [("F", c1Var)], [], 1, "centroid"⟩) p.1 = none) ∧
    Infer ⟨[("T", c1Var)], [("F", c1Var)], [], 1, "centroid"⟩
        ([(("T" : String), (1 : ℚ))] ++ [(("Humidity" : String), (9999 : ℚ))]) =
      Infer ⟨[("T", c1Var)], [("F", c1Var)], [], 1, "centroid"⟩
        [(("T" : String), (1 : ℚ))] := by
  have hx : ∀ p ∈ [(("Humidity" : String), (9999 : ℚ))],
      lookup (MamdaniInferenceSystem.InputVariables
        ⟨[("T", c1Var)], [("F", c1Var)], [], 1, "centroid"⟩) p.1 = none := by
    intro p hp
    simp only [List.mem_singleton] at hp
    subst hp
    simp [lookup]
  exact ⟨hx, c10_extra_inputs_ignored
    ⟨[("T", c1Var)], [("F", c1Var)], [], 1, "centroid"⟩
    [("T", 1)] [("Humidity", 9999)] hx⟩

/-! ### Input validation (C9) -/

/-- If no provided value is out of bounds and some configured variable is
missing, validation reports exactly the missing-input message of the first
missing variable. -/
lemma validateInputs_missing (vars : List (String × FuzzyVariable))
    (inputs : List (String × ℚ)) (name : String) (var : FuzzyVariable)
    (hin : (name, var) ∈ vars)
    (hmiss : lookup inputs name = none)
    (hok : ∀ p ∈ vars, ∀ x, lookup inputs p.1 = some x →
      ¬(x < p.2.MinValue ∨ x > p.2.MaxValue)) :
    ∃ nm, lookup inputs nm = none ∧
      validateInputs vars inputs =
        some ("missing required input variable: " ++ nm) := by
  induction vars with
  | nil => cases hin
  | cons p rest ih =>
    cases p with
    | mk n v =>
      cases hv : lookup inputs n with
      | none => exact ⟨n, hv, by simp [validateInputs, hv]⟩
      | some x =>
        have hb := hok (n, v) (by simp) x hv
        have hrest : (name, var) ∈ rest := by
          rcases List.mem_cons.mp hin with heq | h2
          · exfalso
            injection heq with he1 he2
            rw [he1] at hmiss
            rw [hmiss] at hv
            cases hv
          · exact h2
        obtain ⟨nm, h1, h2⟩ := ih hrest
          (fun q hq => hok q (by simp [hq]))
        exact ⟨nm, h1, by simp [validateInputs, hv, hb, h2]⟩

/-- Validation accepts every inputs map whose values lie within the
inclusive domains — in particular the endpoints. -/
lemma validateInputs_ok (vars : List (String × FuzzyVariable))
    (inputs : List (String × ℚ))
    (h : ∀ p ∈ vars, ∃ x, lookup inputs p.1 = some x ∧
      p.2.MinValue ≤ x ∧ x ≤ p.2.MaxValue) :
    validateInputs vars inputs = none := by
  induction vars with
  | nil => rfl
  | cons p rest ih =>
    cases p with
    | mk n v =>
      obtain ⟨x, hx, hb1, hb2⟩ := h (n, v) (by simp)
      have hb : ¬(x < v.MinValue ∨ x > v.MaxValue) := by
        push_neg
        exact ⟨hb1, hb2⟩
      simp [validateInputs, hx, hb, ih (fun q hq => h q (by simp [hq]))]

/-- The demo input variable `Temperature` over `[0, 50]`. -/
def tempVar : FuzzyVariable :=
  ⟨"Temperature", 0, 50, [("Cold", ⟨"Cold", fun _ => 1⟩)]⟩

/-- The demo output variable `FanSpeed` over `[0, 100]`. -/
def fanVar : FuzzyVariable :=
  ⟨"FanSpeed", 0, 100, [("Off", ⟨"Off", fun _ => 1⟩)]⟩

/-- The demo rule `IF Temperature IS Cold THEN FanSpeed IS Off`. -/
def tempRule : Rule :=
  ⟨[⟨"Temperature", "Cold", false⟩], ⟨"FanSpeed", "Off", false⟩, 1, .AND⟩

/-- A configured demo engine. -/
def tempEngine : MamdaniInferenceSystem :=
  ⟨[("Temperature", tempVar)], [("FanSpeed", fanVar)], [tempRule], 1,
    "centroid"⟩

lemma formatQ2_neg10 : formatQ2 (-10 : ℚ) = "-10.00" := by
  rw [formatQ2, formatFixed_of_int 2 (-10 : ℚ) (-1000) (by norm_num)]
  rfl

lemma formatQ2_zero : formatQ2 (0 : ℚ) = "0.00" := by
  rw [formatQ2, formatFixed_of_int 2 (0 : ℚ) 0 (by norm_num)]
  rfl

lemma formatQ2_fifty : formatQ2 (50 : ℚ) = "50.00" := by
  rw [formatQ2, formatFixed_of_int 2 (50 : ℚ) 5000 (by norm_num)]
  rfl

/-- C9: a missing configured input (with the rest valid) makes `Infer`
fail with exactly `"missing required input variable: <Name>"`; an
out-of-bounds value yields exactly the two-decimal message, as at
`Temperature = -10` over `[0, 50]`; and both domain endpoints pass
validation. -/
theorem c9_input_validation_messages (fis : MamdaniInferenceSystem)
    (inputs : List (String × ℚ)) (name : String) (var : FuzzyVariable)
    (h1 : ¬fis.InputVariables.isEmpty) (h2 : ¬fis.OutputVariables.isEmpty)
    (h3 : ¬fis.Rules.isEmpty)
    (hin : (name, var) ∈ fis.InputVariables)
    (hmiss : lookup inputs name = none)
    (hok : ∀ p ∈ fis.InputVariables, ∀ x, lookup inputs p.1 = some x →
      ¬(x < p.2.MinValue ∨ x > p.2.MaxValue)) :
    (∃ nm, lookup inputs nm = none ∧
      Infer fis inputs =
        .error ("missing required input variable: " ++ nm)) ∧
    Infer tempEngine [("Temperature", -10)] =
      .error "input value -10.00 for variable 'Temperature' is out of bounds [0.00, 50.00]" ∧
    validateInputs tempEngine.InputVariables [("Temperature", (0 : ℚ))] =
      none ∧
    validateInputs tempEngine.InputVariables [("Temperature", (50 : ℚ))] =
      none ∧
    (∀ (vars2 : List (String × FuzzyVariable))
        (inputs2 : List (String × ℚ)),
      (∀ p ∈ vars2, ∃ x, lookup inputs2 p.1 = some x ∧
        p.2.MinValue ≤ x ∧ x ≤ p.2.MaxValue) →
      validateInputs vars2 inputs2 = none) := by
  refine ⟨?_, ?_, ?_, ?_, validateInputs_ok⟩
  · obtain ⟨nm, hnm, hval⟩ :=
      validateInputs_missing fis.InputVariables inputs name var hin hmiss hok
    refine ⟨nm, hnm, ?_⟩
    rw [Infer, if_neg h1, if_neg h2, if_neg h3, hval]
  · have hval : validateInputs tempEngine.InputVariables
        [("Temperature", -10)] =
        some ("input value " ++ formatQ2 (-10) ++ " for variable '" ++
          "Temperature" ++ "' is out of bounds [" ++ formatQ2 0 ++ ", " ++
          formatQ2 50 ++ "]") := by
      norm_num [tempEngine, tempVar, validateInputs, lookup]
    rw [Infer, if_neg (by simp [tempEngine]), if_neg (by simp [tempEngine]),
      if_neg (by simp [tempEngine]), hval, formatQ2_neg10, formatQ2_zero,
      formatQ2_fifty]
    rfl
  · norm_num [tempEngine, tempVar, validateInputs, lookup]
  · norm_num [tempEngine, tempVar, validateInputs, lookup]

theorem c9_input_validation_messages_witness :
    (¬tempEngine.InputVariables.isEmpty) ∧
    (¬tempEngine.OutputVariables.isEmpty) ∧
    (¬tempEngine.Rules.isEmpty) ∧
    (("Temperature", tempVar) ∈ tempEngine.InputVariables) ∧
    (lookup ([] : List (String × ℚ)) "Temperature" = none) ∧
    (∀ p ∈ tempEngine.InputVariables, ∀ x,
      lookup ([] : List (String × ℚ)) p.1 = some x →
      ¬(x < p.2.MinValue ∨ x > p.2.MaxValue)) ∧
    ((∃ nm, lookup ([] : List (String × ℚ)) nm = none ∧
      Infer tempEngine [] =
        .error ("missing required input variable: " ++ nm)) ∧
    Infer tempEngine [("Temperature", -10)] =
      .error "input value -10.00 for variable 'Temperature' is out of bounds [0.00, 50.00]" ∧
    validateInputs tempEngine.InputVariables [("Temperature", (0 : ℚ))] =
      none ∧
    validateInputs tempEngine.InputVariables [("Temperature", (50 : ℚ))] =
      none ∧
    (∀ (vars2 : List (String × FuzzyVariable))
        (inputs2 : List (String × ℚ)),
      (∀ p ∈ vars2, ∃ x, lookup inputs2 p.1 = some x ∧
        p.2.MinValue ≤ x ∧ x ≤ p.2.MaxValue) →
      validateInputs vars2 inputs2 = none)) :=
  ⟨by simp [tempEngine], by simp [tempEngine], by simp [tempEngine],
    by simp [tempEngine], rfl,
    by
      intro p hp x hx
      simp [lookup] at hx,
    c9_input_validation_messages tempEngine [] "Temperature" tempVar
      (by simp [tempEngine]) (by simp [tempEngine]) (by simp [tempEngine])
      (by simp [tempEngine]) rfl
      (by
        intro p hp x hx
        simp [lookup] at hx)⟩

/-! ### "No rule fired" is fatal (C5) -/

/-- With all firing strengths zero, every sampled membership is zero. -/
lemma sampleMax_eq_zero_of_strengths (v : FuzzyVariable)
    (mem : List (String × ℚ)) (x : ℚ) (hz : ∀ p ∈ mem, p.2 = 0) :
    sampleMax v mem x = 0 := by
  rw [sampleMax]
  suffices h : ∀ l : List (String × ℚ), (∀ p ∈ l, p.2 = 0) →
      l.foldl (sampleStep v x) 0 = 0 from h mem hz
  intro l
  induction l with
  | nil => intro _; rfl
  | cons hd tl ih =>
    intro hl
    rw [List.foldl_cons]
    have hstep : sampleStep v x 0 hd = 0 := by
      cases hc : lookup v.Sets hd.1 with
      | none => exact sampleStep_none v x 0 hd hc
      | some s =>
        rw [sampleStep_some v x 0 hd s hc, hl hd (by simp), mul_zero,
          max_self]
    rw [hstep]
    exact ih (fun p hp => hl p (by simp [hp]))

lemma scanMax_eq_zero_of_strengths (v : FuzzyVariable)
    (mem : List (String × ℚ)) (res k : ℕ) (hz : ∀ p ∈ mem, p.2 = 0) :
    scanMax v mem res k = 0 := by
  rcases List.mem_map.mp (scanMax_mem v mem res k) with ⟨i, _, hi⟩
  rw [← hi, sampleMax_eq_zero_of_strengths v mem _ hz]

lemma defuzzifyCOG_no_fire (v : FuzzyVariable) (mem : List (String × ℚ))
    (res : ℤ) (h : mem = [] ∨ ∀ p ∈ mem, p.2 = 0) :
    defuzzifyCOGWithResolution v mem res = .error noRuleFiredMsg := by
  rcases h with rfl | hz
  · rfl
  · rw [defuzzifyCOGWithResolution]
    by_cases he : mem.isEmpty
    · rw [if_pos he]
    · rw [if_neg he]
      simp only [cog_foldl_sums, zero_add]
      have hsum : ((List.range (effectiveResolution res + 1)).map
          (fun i => sampleMax v mem
            (samplePoint v (effectiveResolution res) i))).sum = 0 := by
        refine List.sum_eq_zero ?_
        intro x hx
        rcases List.mem_map.mp hx with ⟨i, _, rfl⟩
        exact sampleMax_eq_zero_of_strengths v mem _ hz
      rw [if_pos hsum]

lemma defuzzifyMOM_no_fire (v : FuzzyVariable) (mem : List (String × ℚ))
    (res : ℤ) (h : mem = [] ∨ ∀ p ∈ mem, p.2 = 0) :
    defuzzifyMOMWithResolution v mem res = .error noRuleFiredMsg := by
  rcases h with rfl | hz
  · rfl
  · rw [defuzzifyMOMWithResolution]
    by_cases he : mem.isEmpty
    · rw [if_pos he]
    · rw [if_neg he]
      simp only [mom_scan_eq]
      rw [if_pos (Or.inr (scanMax_eq_zero_of_strengths v mem _ _ hz))]

lemma defuzzifyFOM_no_fire (v : FuzzyVariable) (mem : List (String × ℚ))
    (res : ℤ) (h : mem = [] ∨ ∀ p ∈ mem, p.2 = 0) :
    defuzzifyFOMWithResolution v mem res = .error noRuleFiredMsg := by
  rcases h with rfl | hz
  · rfl
  · rw [defuzzifyFOMWithResolution]
    by_cases he : mem.isEmpty
    · rw [if_pos he]
    · rw [if_neg he]
      simp only [fom_scan_eq]
      rw [if_pos (scanMax_eq_zero_of_strengths v mem _ _ hz)]

/-- An empty or all-zero aggregation makes every dispatch method fail with
the "no rule fired" message. -/
lemma dispatchDefuzz_no_fire (method : String) (v : FuzzyVariable)
    (mem : List (String × ℚ)) (res : ℤ)
    (h : mem = [] ∨ ∀ p ∈ mem, p.2 = 0) :
    dispatchDefuzz method v mem res = .error noRuleFiredMsg := by
  rw [dispatchDefuzz]
  split_ifs <;>
    first
      | exact defuzzifyCOG_no_fire v mem res h
      | exact defuzzifyMOM_no_fire v mem res h
      | exact defuzzifyFOM_no_fire v mem res h

/-- Every defuzzifier either succeeds or fails with the "no rule fired"
message; there is no other error. -/
lemma defuzzifyCOG_cases (v : FuzzyVariable) (mem : List (String × ℚ))
    (res : ℤ) :
    (∃ q, defuzzifyCOGWithResolution v mem res = .ok q) ∨
    defuzzifyCOGWithResolution v mem res = .error noRuleFiredMsg := by
  rw [defuzzifyCOGWithResolution]
  by_cases he : mem.isEmpty
  · right
    rw [if_pos he]
  · rw [if_neg he]
    simp only [cog_foldl_sums, zero_add]
    split
    · right
      rfl
    · left
      exact ⟨_, rfl⟩

lemma defuzzifyMOM_cases (v : FuzzyVariable) (mem : List (String × ℚ))
    (res : ℤ) :
    (∃ q, defuzzifyMOMWithResolution v mem res = .ok q) ∨
    defuzzifyMOMWithResolution v mem res = .error noRuleFiredMsg := by
  rw [defuzzifyMOMWithResolution]
  by_cases he : mem.isEmpty
  · right
    rw [if_pos he]
  · rw [if_neg he]
    simp only [mom_scan_eq]
    split
    · right
      rfl
    · left
      exact ⟨_, rfl⟩

lemma defuzzifyFOM_cases (v : FuzzyVariable) (mem : List (String × ℚ))
    (res : ℤ) :
    (∃ q, defuzzifyFOMWithResolution v mem res = .ok q) ∨
    defuzzifyFOMWithResolution v mem res = .error noRuleFiredMsg := by
  rw [defuzzifyFOMWithResolution]
  by_cases he : mem.isEmpty
  · right
    rw [if_pos he]
  · rw [if_neg he]
    simp only [fom_scan_eq]
    split
    · right
      rfl
    · left
      exact ⟨_, rfl⟩

lemma dispatchDefuzz_cases (method : String) (v : FuzzyVariable)
    (mem : List (String × ℚ)) (res : ℤ) :
    (∃ q, dispatchDefuzz method v mem res = .ok q) ∨
    dispatchDefuzz method v mem res = .error noRuleFiredMsg := by
  rw [dispatchDefuzz]
  split_ifs <;>
    first
      | exact defuzzifyCOG_cases v mem res
      | exact defuzzifyMOM_cases v mem res
      | exact defuzzifyFOM_cases v mem res

lemma dispatchDefuzz_error_msg (method : String) (v : FuzzyVariable)
    (mem : List (String × ℚ)) (res : ℤ) (e : String)
    (h : dispatchDefuzz method v mem res = .error e) :
    e = noRuleFiredMsg := by
  rcases dispatchDefuzz_cases method v mem res with ⟨q, hq⟩ | hq
  · rw [hq] at h
    cases h
  · rw [hq] at h
    injection h with h2
    exact h2.symm

/-- If any output variable's aggregation makes its dispatch fail, the
whole defuzzification loop fails, and the error is a "no rule fired"
message for some output variable. -/
lemma defuzzAll_error_exists (method : String) (res : ℤ)
    (agg : List (String × List (String × ℚ)))
    (vars : List (String × FuzzyVariable)) (name : String)
    (v : FuzzyVariable) (hvar : (name, v) ∈ vars)
    (hfail : dispatchDefuzz method v ((lookup agg name).getD []) res =
      .error noRuleFiredMsg) :
    ∃ nm, defuzzAll method res agg vars =
      .error ("defuzzification failed for variable '" ++ nm ++ "': " ++
        noRuleFiredMsg) := by
  induction vars with
  | nil => cases hvar
  | cons p rest ih =>
    cases p with
    | mk n2 v2 =>
      rw [defuzzAll]
      cases hd : dispatchDefuzz method v2 ((lookup agg n2).getD []) res with
      | error e =>
        have he : e = noRuleFiredMsg :=
          dispatchDefuzz_error_msg method v2 _ res e hd
        exact ⟨n2, by rw [he]⟩
      | ok r =>
        rcases List.mem_cons.mp hvar with heq | h2
        · injection heq with he1 he2
          subst he1
          subst he2
          rw [hfail] at hd
          cases hd
        · obtain ⟨nm, hrec⟩ := ih h2
          exact ⟨nm, by rw [hrec]⟩

/-- C5: for a configured engine and valid inputs, if some output variable
ends up with an empty or all-zero aggregation, `Infer` fails for the whole
call with a "no rule fired" defuzzification error — no partial output map
is produced. -/
theorem c5_no_rule_fired_fatal (fis : MamdaniInferenceSystem)
    (inputs : List (String × ℚ)) (name : String) (var : FuzzyVariable)
    (agg : List (String × List (String × ℚ)))
    (inner : List (String × ℚ))
    (h1 : ¬fis.InputVariables.isEmpty) (h2 : ¬fis.OutputVariables.isEmpty)
    (h3 : ¬fis.Rules.isEmpty)
    (hval : validateInputs fis.InputVariables inputs = none)
    (hfire : fireRules fis.Rules (buildMembershipMap fis inputs)
      (fis.OutputVariables.map (fun p => (p.1, []))) = .ok agg)
    (hvar : (name, var) ∈ fis.OutputVariables)
    (hinner : lookup agg name = some inner)
    (hzero : inner = [] ∨ ∀ p ∈ inner, p.2 = 0) :
    ∃ nm, Infer fis inputs =
      .error ("defuzzification failed for variable '" ++ nm ++ "': " ++
        noRuleFiredMsg) := by
  rw [Infer, if_neg h1, if_neg h2, if_neg h3, hval]
  simp only [hfire]
  refine defuzzAll_error_exists fis.DefuzzMethod fis.Resolution agg
    fis.OutputVariables name var hvar ?_
  rw [hinner]
  exact dispatchDefuzz_no_fire fis.DefuzzMethod var inner fis.Resolution
    hzero

/-- An input variable whose only set evaluates to `0` everywhere, so no
rule can fire with positive strength. -/
def zeroVar : FuzzyVariable := ⟨"T", 0, 1, [("c", ⟨"c", fun _ => 0⟩)]⟩

/-- The output variable of the all-zero-firing demo engine. -/
def zeroOut : FuzzyVariable := ⟨"F", 0, 1, [("Off", ⟨"Off", fun _ => 1⟩)]⟩

/-- The single rule of the all-zero-firing demo engine. -/
def zeroRule : Rule :=
  ⟨[⟨"T", "c", false⟩], ⟨"F", "Off", false⟩, 1, .AND⟩

/-- A configured engine in which the only rule always fires with
strength `0`. -/
def zeroEngine : MamdaniInferenceSystem :=
  ⟨[("T", zeroVar)], [("F", zeroOut)], [zeroRule], 1, "centroid"⟩

lemma zeroEngine_fire :
    fireRules zeroEngine.Rules
      (buildMembershipMap zeroEngine [("T", 0)])
      (zeroEngine.OutputVariables.map (fun p => (p.1, []))) =
      .ok [("F", [("Off", 0)])] := by
  norm_num [fireRules, Rule.Evaluate, conditionValue, buildMembershipMap,
    FuzzyVariable.Fuzzify, lookup, mapSet, zeroEngine, zeroVar, zeroOut,
    zeroRule, FuzzyOperator.apply, minApply, List.filterMap]

theorem c5_no_rule_fired_fatal_witness :
    (¬zeroEngine.InputVariables.isEmpty) ∧
    (¬zeroEngine.OutputVariables.isEmpty) ∧
    (¬zeroEngine.Rules.isEmpty) ∧
    (validateInputs zeroEngine.InputVariables [("T", 0)] = none) ∧
    (fireRules zeroEngine.Rules
      (buildMembershipMap zeroEngine [("T", 0)])
      (zeroEngine.OutputVariables.map (fun p => (p.1, []))) =
      .ok [("F", [("Off", 0)])]) ∧
    (("F", zeroOut) ∈ zeroEngine.OutputVariables) ∧
    (lookup [("F", [("Off", (0 : ℚ))])] "F" = some [("Off", 0)]) ∧
    (([("Off", (0 : ℚ))] : List (String × ℚ)) = [] ∨
      ∀ p ∈ ([("Off", (0 : ℚ))] : List (String × ℚ)), p.2 = 0) ∧
    (∃ nm, Infer zeroEngine [("T", 0)] =
      .error ("defuzzification failed for variable '" ++ nm ++ "': " ++
        noRuleFiredMsg)) :=
  ⟨by simp [zeroEngine], by simp [zeroEngine], by simp [zeroEngine],
    by norm_num [validateInputs, lookup, zeroEngine, zeroVar],
    zeroEngine_fire,
    by simp [zeroEngine],
    by simp [lookup],
    Or.inr (by
      intro p hp
      simp only [List.mem_singleton] at hp
      subst hp
      rfl),
    c5_no_rule_fired_fatal zeroEngine [("T", 0)] "F" zeroOut
      [("F", [("Off", 0)])] [("Off", 0)]
      (by simp [zeroEngine]) (by simp [zeroEngine]) (by simp [zeroEngine])
      (by norm_num [validateInputs, lookup, zeroEngine, zeroVar])
      zeroEngine_fire
      (by simp [zeroEngine])
      (by simp [lookup])
      (Or.inr (by
        intro p hp
        simp only [List.mem_singleton] at hp
        subst hp
        rfl))⟩

end Fuzzylib
